import Mathlib

/-!
Verification of the connection-resilience core of the `24vlh/angular-tools`
repository against its natural-language specification.

The development shallowly embeds, in Lean:

* the `ExponentiallyBackoff` rxjs retry operator's delay computation
  (`src/lib/helpers/exponentially-backoff/exponentially-backoff.ts`);
* the `StoreWorker` observable key/value store
  (`src/lib/workers/store/store.worker.ts`) over an explicit heap model of
  JavaScript object graphs, so that aliasing and deep-copy behaviour are real;
* the `WebsocketWorker` (`src/lib/workers/websocket/websocket.worker.ts`) and
  the `ServerSentEventWorker`
  (`src/lib/workers/server-sent-event/server-sent-event.worker.ts`) as state
  machines over a model of rxjs `ReplaySubject`/`Subject` semantics.

Machine integers do not overflow in any of the modelled code paths (delays and
counters are small), so numbers are embedded as `Nat`/`Int`.
-/

namespace AngularTools

/-! ## ExponentiallyBackoff delay computation

Source (`exponentially-backoff.ts`, lines 30-39):

```
retry({
  count: maxRetryAttempts,
  resetOnSuccess: true,
  delay: (errors, retryCount) =>
    timer(disableAndUseConstantDelayOf ??
          Math.min(initialDelay * Math.pow(2, retryCount), maxDelay))
})
```

`??` is JavaScript's nullish coalescing: the right-hand side is used only when
`disableAndUseConstantDelayOf` is `undefined`/`null`, which `Option` models
exactly (`some 0` is a provided constant delay of `0`, not absence).
`retryCount` is the 1-based retry counter rxjs passes to the `delay` callback.
-/

def ExponentiallyBackoffDelay (initialDelay maxDelay : Nat)
    (disableAndUseConstantDelayOf : Option Nat) (retryCount : Nat) : Nat :=
  match disableAndUseConstantDelayOf with
  | some c => c
  | none => min (initialDelay * 2 ^ retryCount) maxDelay

/-- The delay formula the spec claims (`min(constantDelay ?? initial·2^n, maxDelay)`):
the `min` with `maxDelay` is applied on the outside, even to a constant delay. -/
def SpecClaimedDelay (initialDelay maxDelay : Nat)
    (disableAndUseConstantDelayOf : Option Nat) (retryCount : Nat) : Nat :=
  min (disableAndUseConstantDelayOf.getD (initialDelay * 2 ^ retryCount)) maxDelay

/-! ## Heap model of JavaScript object graphs

`StoreWorker` hands out and stores *copies* of object graphs
(`DeepCopyPrimitive` / `DeepFreezePrimitive` from `@24vlh/ts-helpers`), so the
claims about it are aliasing claims.  We model the JavaScript heap explicitly:
a value is a primitive or a reference to a heap cell, and a heap cell holds an
object (an ordered field list).  Addresses are allocated in increasing order.
-/

-- Heap addresses are natural numbers.

/-- A JavaScript value: a JSON-style primitive, or a reference to an object on
the heap. -/
inductive JVal where
  | jnull
  | jbool (b : Bool)
  | jnum (n : Int)
  | jstr (s : String)
  | ref (a : Nat)
  deriving DecidableEq, Repr

/-- An object: an ordered association list of fields. -/
abbrev JObj := List (String × JVal)

/-- The heap: allocated cells (newest first) plus the next fresh address. -/
structure Heap where
  cells : List (Nat × JObj)
  next : Nat
  deriving DecidableEq, Repr

def Heap.lookup (h : Heap) (a : Nat) : Option JObj :=
  (h.cells.find? (fun c => c.1 == a)).map (fun c => c.2)

def Heap.alloc (h : Heap) (o : JObj) : Nat × Heap :=
  (h.next, ⟨(h.next, o) :: h.cells, h.next + 1⟩)

/-- Overwrite the object stored at an (existing) address; models external
mutation of an object. -/
def Heap.write (h : Heap) (a : Nat) (o : JObj) : Heap :=
  ⟨(a, o) :: h.cells, h.next⟩

/-- Look up a field of an object. -/
def lookupField (o : JObj) (k : String) : Option JVal :=
  (o.find? (fun e => e.1 == k)).map (fun e => e.2)

/-- Replace the value of field `k` (used for `Immutable.Map.set`). -/
def setField (o : JObj) (k : String) (v : JVal) : JObj :=
  o.map (fun e => if e.1 == k then (e.1, v) else e)

/-- A value's references lie below bound `n`. -/
def JVal.refsLT (n : Nat) : JVal → Prop
  | .ref a => a < n
  | _ => True

/-- A value's references lie at or above bound `n`. -/
def JVal.refsGE (n : Nat) : JVal → Prop
  | .ref a => n ≤ a
  | _ => True

def JObj.refsLT (n : Nat) (o : JObj) : Prop :=
  ∀ e ∈ o, JVal.refsLT n e.2

def JObj.refsGE (n : Nat) (o : JObj) : Prop :=
  ∀ e ∈ o, JVal.refsGE n e.2

/-- The visible object at address `a` (if any) only references cells below
`next`. -/
def Heap.CellOk (h : Heap) (a : Nat) : Prop :=
  match h.lookup a with
  | some o => JObj.refsLT h.next o
  | none => True

/-- Heap well-formedness: all cell addresses lie below `next`, and every
visible cell only references cells below `next`. -/
def Heap.Closed (h : Heap) : Prop :=
  (∀ c ∈ h.cells, c.1 < h.next) ∧ (∀ c ∈ h.cells, Heap.CellOk h c.1)

/-- Cells at or above `n` only reference cells at or above `n` (the freshly
copied region is self-contained). -/
def Heap.RegionGE (n : Nat) (h : Heap) : Prop :=
  ∀ a o, n ≤ a → h.lookup a = some o → JObj.refsGE n o

instance : DecidablePred (JVal.refsLT n) := fun v => by
  cases v <;> simp [JVal.refsLT] <;> infer_instance

instance : DecidablePred (JVal.refsGE n) := fun v => by
  cases v <;> simp [JVal.refsGE] <;> infer_instance

instance (n : Nat) (o : JObj) : Decidable (JObj.refsLT n o) := by
  unfold JObj.refsLT; infer_instance

instance (h : Heap) (a : Nat) : Decidable (h.CellOk a) := by
  unfold Heap.CellOk
  exact match h.lookup a with
  | some _ => inferInstance
  | none => inferInstance

instance (h : Heap) : Decidable h.Closed := by
  unfold Heap.Closed; infer_instance

/-! ### Path traversal (`Immutable.Map` `getIn`/`hasIn` on plain objects)

`readPath h v p` follows path `p` from value `v` through the heap: the model of
`map.getIn(p)` (with `p = []` yielding the collection itself, per Immutable.js).
It recurses on the path, so it is total even on cyclic heaps. -/

def readPath (h : Heap) : JVal → List String → Option JVal
  | v, [] => some v
  | .ref a, k :: rest =>
      match h.lookup a with
      | some o =>
          match lookupField o k with
          | some v' => readPath h v' rest
          | none => none
      | none => none
  | _, _ :: _ => none

/-- Normalise a value to its primitive content (`none` for references), so that
two heaps can be compared observationally. -/
def refNorm : JVal → Option JVal
  | .ref _ => none
  | v => some v

/-- The observable content at a path: presence plus primitive value, with
references (whose numeric addresses are allocation artefacts) normalised. -/
def obs (h : Heap) (v : JVal) (p : List String) : Option (Option JVal) :=
  (readPath h v p).map refNorm

/-! ### `DeepCopyPrimitive`

Modelled from the spec: `DeepCopyPrimitive` (package `@24vlh/ts-helpers`, a
dependency of this repository, not part of its sources) recursively clones an
object graph — "the public snapshot returned by state-read accessors is
defensively deep-copied".  The clone allocates fresh cells for every object
reached and copies primitives as-is.  `fuel` bounds the recursion depth; the
theorems assume the graph's height fits in the fuel (`heightOk`), which is
exactly the acyclicity the JavaScript original needs to terminate. -/

mutual

def copyVal : Nat → Heap → JVal → JVal × Heap
  | _, h, .jnull => (.jnull, h)
  | _, h, .jbool b => (.jbool b, h)
  | _, h, .jnum n => (.jnum n, h)
  | _, h, .jstr s => (.jstr s, h)
  | 0, h, .ref _ => (.jnull, h)
  | fuel + 1, h, .ref a =>
      match h.lookup a with
      | none => (.jnull, h)
      | some o =>
          let p := copyObj fuel h o
          let q := p.2.alloc p.1
          (.ref q.1, q.2)
termination_by fuel _ _ => (fuel, 0)

def copyObj : Nat → Heap → JObj → JObj × Heap
  | _, h, [] => ([], h)
  | fuel, h, (k, v) :: rest =>
      let p := copyVal fuel h v
      let q := copyObj fuel p.2 rest
      ((k, p.1) :: q.1, q.2)
termination_by fuel _ o => (fuel, o.length + 1)

end

/-! `heightOk fuel h v`: does the object graph below `v` have height at most
`fuel` (and no dangling references)?  This is the termination condition of the
JavaScript deep copy. -/

mutual

def heightOk : Nat → Heap → JVal → Bool
  | _, _, .jnull => true
  | _, _, .jbool _ => true
  | _, _, .jnum _ => true
  | _, _, .jstr _ => true
  | 0, _, .ref _ => false
  | fuel + 1, h, .ref a =>
      match h.lookup a with
      | none => false
      | some o => heightOkObj fuel h o
termination_by fuel _ _ => (fuel, 0)

def heightOkObj : Nat → Heap → JObj → Bool
  | _, _, [] => true
  | fuel, h, (_, v) :: rest => heightOk fuel h v && heightOkObj fuel h rest
termination_by fuel _ o => (fuel, o.length + 1)

end

/-- Cell addresses lie below the allocation bound (first half of `Closed`). -/
def Heap.AddrsLT (h : Heap) : Prop :=
  ∀ c ∈ h.cells, c.1 < h.next

theorem Heap.Closed.addrsLT {h : Heap} (hc : h.Closed) : h.AddrsLT := hc.1

theorem lookup_alloc_self (h : Heap) (o : JObj) :
    (h.alloc o).2.lookup h.next = some o := by
  simp [Heap.alloc, Heap.lookup, List.find?]

theorem lookup_alloc_ne (h : Heap) (o : JObj) {a : Nat} (hne : a ≠ h.next) :
    (h.alloc o).2.lookup a = h.lookup a := by
  simp only [Heap.alloc, Heap.lookup, List.find?]
  have : (h.next == a) = false := by simp [Ne.symm hne]
  simp [this]

theorem lookup_mem_cells {h : Heap} {a : Nat} {o : JObj}
    (hl : h.lookup a = some o) : (a, o) ∈ h.cells := by
  unfold Heap.lookup at hl
  obtain ⟨c, hc, hco⟩ := Option.map_eq_some'.mp hl
  have := List.find?_some hc
  have hmem := List.mem_of_find?_eq_some hc
  have ha : c.1 = a := by simpa using this
  cases c
  simp_all

theorem lookup_lt_of_addrsLT {h : Heap} (ha : h.AddrsLT) {a : Nat} {o : JObj}
    (hl : h.lookup a = some o) : a < h.next := by
  have := ha _ (lookup_mem_cells hl)
  simpa using this

theorem copyVal_jnull (fuel : Nat) (h : Heap) : copyVal fuel h .jnull = (.jnull, h) := by
  cases fuel <;> simp [copyVal]

theorem copyVal_jbool (fuel : Nat) (h : Heap) (b : Bool) :
    copyVal fuel h (.jbool b) = (.jbool b, h) := by
  cases fuel <;> simp [copyVal]

theorem copyVal_jnum (fuel : Nat) (h : Heap) (n : Int) :
    copyVal fuel h (.jnum n) = (.jnum n, h) := by
  cases fuel <;> simp [copyVal]

theorem copyVal_jstr (fuel : Nat) (h : Heap) (s : String) :
    copyVal fuel h (.jstr s) = (.jstr s, h) := by
  cases fuel <;> simp [copyVal]

theorem copyVal_ref_zero (h : Heap) (a : Nat) : copyVal 0 h (.ref a) = (.jnull, h) := by
  simp [copyVal]

theorem copyVal_ref_none (n : Nat) (h : Heap) (a : Nat) (hla : h.lookup a = none) :
    copyVal (n + 1) h (.ref a) = (.jnull, h) := by
  simp [copyVal, hla]

theorem copyVal_ref_some (n : Nat) (h : Heap) (a : Nat) (o : JObj)
    (hla : h.lookup a = some o) :
    copyVal (n + 1) h (.ref a) =
      (.ref (copyObj n h o).2.next, ((copyObj n h o).2.alloc (copyObj n h o).1).2) := by
  simp [copyVal, hla, Heap.alloc]

theorem copyObj_nil (fuel : Nat) (h : Heap) : copyObj fuel h [] = ([], h) := by
  cases fuel <;> simp [copyObj]

theorem copyObj_cons (fuel : Nat) (h : Heap) (k : String) (v : JVal) (rest : JObj) :
    copyObj fuel h ((k, v) :: rest) =
      ((k, (copyVal fuel h v).1) :: (copyObj fuel (copyVal fuel h v).2 rest).1,
       (copyObj fuel (copyVal fuel h v).2 rest).2) := by
  cases fuel <;> simp [copyObj]

theorem refsGE_mono {m n : Nat} {v : JVal} (h : m ≤ n)
    (hv : JVal.refsGE n v) : JVal.refsGE m v := by
  cases v <;> first | trivial | exact le_trans h hv

theorem refsLT_mono {m n : Nat} {v : JVal} (h : n ≤ m)
    (hv : JVal.refsLT n v) : JVal.refsLT m v := by
  cases v <;> first | trivial | exact lt_of_lt_of_le hv h

theorem objRefsGE_mono {m n : Nat} {o : JObj} (h : m ≤ n)
    (ho : JObj.refsGE n o) : JObj.refsGE m o :=
  fun e he => refsGE_mono h (ho e he)

theorem objRefsLT_mono {m n : Nat} {o : JObj} (h : n ≤ m)
    (ho : JObj.refsLT n o) : JObj.refsLT m o :=
  fun e he => refsLT_mono h (ho e he)

/-- The full specification of one `copyVal` call: allocation is monotone, old
cells are untouched, the result references only the fresh region, and (when
cell addresses are in bounds) fresh cells reference only the fresh region. -/
def CopyValSpec (fuel : Nat) : Prop :=
  ∀ h v,
    h.next ≤ (copyVal fuel h v).2.next ∧
    (∀ a, a < h.next → (copyVal fuel h v).2.lookup a = h.lookup a) ∧
    JVal.refsGE h.next (copyVal fuel h v).1 ∧
    JVal.refsLT (copyVal fuel h v).2.next (copyVal fuel h v).1 ∧
    (h.AddrsLT → (copyVal fuel h v).2.AddrsLT ∧
      ∀ a o, h.next ≤ a → (copyVal fuel h v).2.lookup a = some o →
        JObj.refsGE h.next o ∧ JObj.refsLT (copyVal fuel h v).2.next o)

/-- The same specification for `copyObj`. -/
def CopyObjSpec (fuel : Nat) : Prop :=
  ∀ h o,
    h.next ≤ (copyObj fuel h o).2.next ∧
    (∀ a, a < h.next → (copyObj fuel h o).2.lookup a = h.lookup a) ∧
    JObj.refsGE h.next (copyObj fuel h o).1 ∧
    JObj.refsLT (copyObj fuel h o).2.next (copyObj fuel h o).1 ∧
    (h.AddrsLT → (copyObj fuel h o).2.AddrsLT ∧
      ∀ a o', h.next ≤ a → (copyObj fuel h o).2.lookup a = some o' →
        JObj.refsGE h.next o' ∧ JObj.refsLT (copyObj fuel h o).2.next o')

/-- A call that returns its heap unchanged and a primitive value meets the
specification shape. -/
theorem prim_spec (h : Heap) (w : JVal) (hGE : JVal.refsGE h.next w)
    (hLT : JVal.refsLT h.next w) :
    h.next ≤ h.next ∧
    (∀ a, a < h.next → h.lookup a = h.lookup a) ∧
    JVal.refsGE h.next w ∧ JVal.refsLT h.next w ∧
    (h.AddrsLT → h.AddrsLT ∧
      ∀ a o, h.next ≤ a → h.lookup a = some o →
        JObj.refsGE h.next o ∧ JObj.refsLT h.next o) := by
  refine ⟨le_refl _, fun a _ => rfl, hGE, hLT, fun ha => ⟨ha, ?_⟩⟩
  intro a o hge hl
  exact absurd (lookup_lt_of_addrsLT ha hl) (by omega)

theorem copyObjSpec_of_val {fuel : Nat} (hval : CopyValSpec fuel) :
    CopyObjSpec fuel := by
  intro h o
  induction o generalizing h with
  | nil =>
      rw [copyObj_nil]
      refine ⟨le_refl _, fun a _ => rfl, ?_, ?_, fun ha => ⟨ha, ?_⟩⟩
      · intro e he; cases he
      · intro e he; cases he
      · intro a o' hge hl
        exact absurd (lookup_lt_of_addrsLT ha hl) (by omega)
  | cons kv rest ih =>
      obtain ⟨k, v⟩ := kv
      have hv := hval h v
      have hrest := ih (copyVal fuel h v).2
      rw [copyObj_cons]
      obtain ⟨hv1, hv2, hv3, hv4, hv5⟩ := hv
      obtain ⟨hr1, hr2, hr3, hr4, hr5⟩ := hrest
      refine ⟨le_trans hv1 hr1, ?_, ?_, ?_, ?_⟩
      · intro a halt
        rw [hr2 a (lt_of_lt_of_le halt hv1), hv2 a halt]
      · intro e he
        rcases List.mem_cons.mp he with rfl | he'
        · exact hv3
        · exact refsGE_mono hv1 (hr3 e he')
      · intro e he
        rcases List.mem_cons.mp he with rfl | he'
        · exact refsLT_mono hr1 hv4
        · exact hr4 e he'
      · intro ha
        obtain ⟨hva, hvr⟩ := hv5 ha
        obtain ⟨hra, hrr⟩ := hr5 hva
        refine ⟨hra, ?_⟩
        intro a o' hge hl
        by_cases hlt : a < (copyVal fuel h v).2.next
        · have := hvr a o' hge (by rw [← hr2 a hlt]; exact hl)
          exact ⟨this.1, objRefsLT_mono hr1 this.2⟩
        · have := hrr a o' (le_of_not_lt hlt) hl
          exact ⟨objRefsGE_mono hv1 this.1, this.2⟩

theorem copyValSpec : ∀ fuel, CopyValSpec fuel := by
  intro fuel
  induction fuel with
  | zero =>
      intro h v
      cases v with
      | jnull => rw [copyVal_jnull]; exact prim_spec h _ trivial trivial
      | jbool b => rw [copyVal_jbool]; exact prim_spec h _ trivial trivial
      | jnum n => rw [copyVal_jnum]; exact prim_spec h _ trivial trivial
      | jstr s => rw [copyVal_jstr]; exact prim_spec h _ trivial trivial
      | ref a => rw [copyVal_ref_zero]; exact prim_spec h _ trivial trivial
  | succ n ih =>
      have hobj := copyObjSpec_of_val ih
      intro h v
      cases v with
      | jnull => rw [copyVal_jnull]; exact prim_spec h _ trivial trivial
      | jbool b => rw [copyVal_jbool]; exact prim_spec h _ trivial trivial
      | jnum m => rw [copyVal_jnum]; exact prim_spec h _ trivial trivial
      | jstr s => rw [copyVal_jstr]; exact prim_spec h _ trivial trivial
      | ref a =>
          cases hla : h.lookup a with
          | none => rw [copyVal_ref_none n h a hla]; exact prim_spec h _ trivial trivial
          | some o =>
              have hsp := hobj h o
              rw [copyVal_ref_some n h a o hla]
              obtain ⟨h1, h2, h3, h4, h5⟩ := hsp
              have hnext :
                  (((copyObj n h o).2.alloc (copyObj n h o).1).2).next =
                    (copyObj n h o).2.next + 1 := rfl
              refine ⟨?_, ?_, ?_, ?_, ?_⟩
              · rw [hnext]; omega
              · intro b hb
                rw [lookup_alloc_ne (copyObj n h o).2 (copyObj n h o).1 (by omega),
                  h2 b hb]
              · show h.next ≤ (copyObj n h o).2.next
                omega
              · show (copyObj n h o).2.next < _
                rw [hnext]; omega
              · intro ha
                obtain ⟨hpa, hpr⟩ := h5 ha
                constructor
                · intro c hc
                  rcases List.mem_cons.mp hc with rfl | hc'
                  · show (copyObj n h o).2.next < _
                    rw [hnext]; omega
                  · have := hpa c hc'
                    rw [hnext]; omega
                · intro b o' hge hl
                  by_cases hb : b = (copyObj n h o).2.next
                  · subst hb
                    rw [lookup_alloc_self] at hl
                    cases hl
                    exact ⟨h3, objRefsLT_mono (by rw [hnext]; omega) h4⟩
                  · rw [lookup_alloc_ne (copyObj n h o).2 (copyObj n h o).1 hb] at hl
                    have := hpr b o' hge hl
                    exact ⟨this.1, objRefsLT_mono (by rw [hnext]; omega) this.2⟩

theorem copyObjSpec (fuel : Nat) : CopyObjSpec fuel :=
  copyObjSpec_of_val (copyValSpec fuel)

theorem Heap.Closed.lookup_refsLT {h : Heap} (hc : h.Closed) {a : Nat} {o : JObj}
    (hl : h.lookup a = some o) : JObj.refsLT h.next o := by
  have hm := lookup_mem_cells hl
  have := hc.2 _ hm
  unfold Heap.CellOk at this
  simp only at this
  rw [hl] at this
  exact this

/-- A heap extension that is allocation-monotone, preserves old cells, keeps
addresses in bounds and keeps fresh cells' references in bounds preserves
well-formedness. -/
theorem Heap.Closed.extend {h h' : Heap} (hc : h.Closed)
    (hmono : h.next ≤ h'.next)
    (hagree : ∀ a, a < h.next → h'.lookup a = h.lookup a)
    (haddr : h'.AddrsLT)
    (hregion : ∀ a o, h.next ≤ a → h'.lookup a = some o → JObj.refsLT h'.next o) :
    h'.Closed := by
  refine ⟨haddr, ?_⟩
  intro c _
  unfold Heap.CellOk
  cases hl : h'.lookup c.1 with
  | none => trivial
  | some o =>
      simp only
      by_cases hlt : c.1 < h.next
      · rw [hagree c.1 hlt] at hl
        exact objRefsLT_mono hmono (hc.lookup_refsLT hl)
      · exact hregion c.1 o (le_of_not_lt hlt) hl

theorem copyVal_closed (fuel : Nat) (h : Heap) (v : JVal) (hc : h.Closed) :
    (copyVal fuel h v).2.Closed := by
  obtain ⟨h1, h2, _, _, h5⟩ := copyValSpec fuel h v
  obtain ⟨ha, hr⟩ := h5 hc.1
  exact hc.extend h1 h2 ha (fun a o hge hl => (hr a o hge hl).2)

theorem copyObj_closed (fuel : Nat) (h : Heap) (o : JObj) (hc : h.Closed) :
    (copyObj fuel h o).2.Closed := by
  obtain ⟨h1, h2, _, _, h5⟩ := copyObjSpec fuel h o
  obtain ⟨ha, hr⟩ := h5 hc.1
  exact hc.extend h1 h2 ha (fun a o' hge hl => (hr a o' hge hl).2)

theorem lookupField_mem {o : JObj} {k : String} {v : JVal}
    (h : lookupField o k = some v) : ∃ e ∈ o, e.2 = v := by
  unfold lookupField at h
  obtain ⟨e, he, hev⟩ := Option.map_eq_some'.mp h
  exact ⟨e, List.mem_of_find?_eq_some he, hev⟩

/-- Path reads depend only on the cells in an address set `S` that contains
the root's references and is closed under following references. -/
theorem readPath_congr (S : Nat → Prop) {h₁ h₂ : Heap}
    (agree : ∀ a, S a → h₂.lookup a = h₁.lookup a)
    (closed : ∀ a o, S a → h₁.lookup a = some o → ∀ e ∈ o, ∀ b, e.2 = JVal.ref b → S b) :
    ∀ (p : List String) (v : JVal), (∀ b, v = JVal.ref b → S b) →
      readPath h₂ v p = readPath h₁ v p := by
  intro p
  induction p with
  | nil => intro v _; cases v <;> rfl
  | cons k rest ih =>
      intro v hv
      cases v with
      | ref a =>
          have hS : S a := hv a rfl
          simp only [readPath, agree a hS]
          cases hl : h₁.lookup a with
          | none => rfl
          | some o =>
              simp only
              cases hf : lookupField o k with
              | none => rfl
              | some v' =>
                  simp only
                  refine ih v' ?_
                  intro b hb
                  obtain ⟨e, he, hev⟩ := lookupField_mem hf
                  exact closed a o hS hl e he b (hev.trans hb)
      | jnull => rfl
      | jbool b => rfl
      | jnum n => rfl
      | jstr s => rfl

theorem heightOk_jnull (fuel : Nat) (h : Heap) : heightOk fuel h .jnull = true := by
  cases fuel <;> simp [heightOk]

theorem heightOk_jbool (fuel : Nat) (h : Heap) (b : Bool) :
    heightOk fuel h (.jbool b) = true := by
  cases fuel <;> simp [heightOk]

theorem heightOk_jnum (fuel : Nat) (h : Heap) (n : Int) :
    heightOk fuel h (.jnum n) = true := by
  cases fuel <;> simp [heightOk]

theorem heightOk_jstr (fuel : Nat) (h : Heap) (s : String) :
    heightOk fuel h (.jstr s) = true := by
  cases fuel <;> simp [heightOk]

theorem heightOk_ref_zero (h : Heap) (a : Nat) : heightOk 0 h (.ref a) = false := by
  simp [heightOk]

theorem heightOk_ref_succ (n : Nat) (h : Heap) (a : Nat) :
    heightOk (n + 1) h (.ref a) =
      match h.lookup a with
      | none => false
      | some o => heightOkObj n h o := by
  simp [heightOk]

theorem heightOkObj_nil (fuel : Nat) (h : Heap) : heightOkObj fuel h [] = true := by
  cases fuel <;> simp [heightOkObj]

theorem heightOkObj_cons (fuel : Nat) (h : Heap) (k : String) (v : JVal) (rest : JObj) :
    heightOkObj fuel h ((k, v) :: rest) =
      (heightOk fuel h v && heightOkObj fuel h rest) := by
  cases fuel <;> simp [heightOkObj]

/-- The copy-termination bound likewise depends only on the cells in an
`S`-closed address set containing the root's references. -/
theorem heightOk_congr (S : Nat → Prop) {h₁ h₂ : Heap}
    (agree : ∀ a, S a → h₂.lookup a = h₁.lookup a)
    (closed : ∀ a o, S a → h₁.lookup a = some o → ∀ e ∈ o, ∀ b, e.2 = JVal.ref b → S b) :
    ∀ fuel : Nat,
      (∀ v : JVal, (∀ b, v = JVal.ref b → S b) →
        heightOk fuel h₂ v = heightOk fuel h₁ v) ∧
      (∀ o : JObj, (∀ e ∈ o, ∀ b, e.2 = JVal.ref b → S b) →
        heightOkObj fuel h₂ o = heightOkObj fuel h₁ o) := by
  intro fuel
  induction fuel with
  | zero =>
      constructor
      · intro v _
        cases v <;> simp [heightOk_jnull, heightOk_jbool, heightOk_jnum, heightOk_jstr,
          heightOk_ref_zero]
      · intro o ho
        induction o with
        | nil => simp [heightOkObj_nil]
        | cons e rest ih =>
            obtain ⟨k, v⟩ := e
            rw [heightOkObj_cons, heightOkObj_cons]
            have hv : heightOk 0 h₂ v = heightOk 0 h₁ v := by
              cases v <;> simp [heightOk_jnull, heightOk_jbool, heightOk_jnum,
                heightOk_jstr, heightOk_ref_zero]
            rw [hv, ih (fun e he b hb => ho e (List.mem_cons_of_mem _ he) b hb)]
  | succ n ihn =>
      have hval : ∀ v : JVal, (∀ b, v = JVal.ref b → S b) →
          heightOk (n + 1) h₂ v = heightOk (n + 1) h₁ v := by
        intro v hv
        cases v with
        | ref a =>
            have hS : S a := hv a rfl
            rw [heightOk_ref_succ, heightOk_ref_succ, agree a hS]
            cases hl : h₁.lookup a with
            | none => rfl
            | some o =>
                simp only
                exact ihn.2 o (fun e he b hb => closed a o hS hl e he b hb)
        | jnull => simp [heightOk_jnull]
        | jbool b => simp [heightOk_jbool]
        | jnum m => simp [heightOk_jnum]
        | jstr s => simp [heightOk_jstr]
      refine ⟨hval, ?_⟩
      intro o ho
      induction o with
      | nil => simp [heightOkObj_nil]
      | cons e rest ih =>
          obtain ⟨k, v⟩ := e
          rw [heightOkObj_cons, heightOkObj_cons,
            hval v (fun b hb => ho (k, v) (List.mem_cons_self _ _) b hb),
            ih (fun e he b hb => ho e (List.mem_cons_of_mem _ he) b hb)]

theorem refsLT_elim {n : Nat} {v : JVal} (h : JVal.refsLT n v) :
    ∀ b, v = JVal.ref b → b < n := by
  intro b hb; subst hb; exact h

theorem closed_refs_cond {h : Heap} (hc : h.Closed) :
    ∀ a o, a < h.next → h.lookup a = some o →
      ∀ e ∈ o, ∀ b, e.2 = JVal.ref b → b < h.next := by
  intro a o _ hl e he b hb
  have := hc.lookup_refsLT hl e he
  rw [hb] at this
  exact this

/-- Reads from a well-formed heap are unchanged by any extension that keeps
the cells below `next`. -/
theorem readPath_ext {h h' : Heap} (hc : h.Closed)
    (hagree : ∀ a, a < h.next → h'.lookup a = h.lookup a) :
    ∀ (p : List String) (v : JVal), JVal.refsLT h.next v →
      readPath h' v p = readPath h v p :=
  fun p v hv =>
    readPath_congr (fun a => a < h.next) hagree (closed_refs_cond hc) p v (refsLT_elim hv)

theorem heightOk_ext {h h' : Heap} (hc : h.Closed)
    (hagree : ∀ a, a < h.next → h'.lookup a = h.lookup a) (fuel : Nat) :
    (∀ v, JVal.refsLT h.next v → heightOk fuel h' v = heightOk fuel h v) ∧
    (∀ o, JObj.refsLT h.next o → heightOkObj fuel h' o = heightOkObj fuel h o) := by
  have hbase := heightOk_congr (fun a => a < h.next) hagree (closed_refs_cond hc) fuel
  constructor
  · intro v hv; exact hbase.1 v (refsLT_elim hv)
  · intro o ho
    exact hbase.2 o (fun e he b hb => by
      have := ho e he; rw [hb] at this; exact this)

/-- The observation of field `k` of a top-level object, then path `p`. -/
def objObs (h : Heap) (o : JObj) (k : String) (p : List String) : Option (Option JVal) :=
  ((lookupField o k).bind (fun v => readPath h v p)).map refNorm

theorem lookupField_cons (k0 : String) (x : JVal) (t : JObj) (k : String) :
    lookupField ((k0, x) :: t) k = if k0 == k then some x else lookupField t k := by
  simp only [lookupField, List.find?]
  cases h : k0 == k <;> simp [h, lookupField]

theorem obs_ref_cons {h : Heap} {a : Nat} {o : JObj} (hl : h.lookup a = some o)
    (k : String) (rest : List String) :
    obs h (.ref a) (k :: rest) = objObs h o k rest := by
  unfold obs objObs
  simp only [readPath, hl]
  cases hf : lookupField o k with
  | none => simp [hf]
  | some v' => simp [hf]

theorem objObs_ext {h h' : Heap} (hc : h.Closed)
    (hagree : ∀ a, a < h.next → h'.lookup a = h.lookup a)
    {o : JObj} (ho : JObj.refsLT h.next o) (k : String) (p : List String) :
    objObs h' o k p = objObs h o k p := by
  unfold objObs
  cases hf : lookupField o k with
  | none => rfl
  | some v =>
      obtain ⟨e, he, hev⟩ := lookupField_mem hf
      have hv : JVal.refsLT h.next v := hev ▸ ho e he
      rw [Option.some_bind, Option.some_bind, readPath_ext hc hagree p v hv]

/-- Observational correctness of `copyVal`: a deep copy has the same content
as the original at every path, viewed through the updated heap. -/
def CopyValObs (fuel : Nat) : Prop :=
  ∀ h v, h.Closed → JVal.refsLT h.next v → heightOk fuel h v = true →
    ∀ p, obs (copyVal fuel h v).2 (copyVal fuel h v).1 p = obs h v p

def CopyObjObs (fuel : Nat) : Prop :=
  ∀ h o, h.Closed → JObj.refsLT h.next o → heightOkObj fuel h o = true →
    ∀ k p, objObs (copyObj fuel h o).2 (copyObj fuel h o).1 k p = objObs h o k p

theorem copyObjObs_of_val {fuel : Nat} (hval : CopyValObs fuel) : CopyObjObs fuel := by
  intro h o
  induction o generalizing h with
  | nil =>
      intro _ _ _ k p
      rw [copyObj_nil]
  | cons e rest ih =>
      obtain ⟨k0, v0⟩ := e
      intro hc ho hh k p
      rw [heightOkObj_cons] at hh
      obtain ⟨hh1, hh2⟩ := Bool.and_eq_true_iff.mp hh
      have hv0refs : JVal.refsLT h.next v0 := ho (k0, v0) (List.mem_cons_self _ _)
      have hrestrefs : JObj.refsLT h.next rest :=
        fun e he => ho e (List.mem_cons_of_mem _ he)
      obtain ⟨hv1, hv2, hv3, hv4, _⟩ := copyValSpec fuel h v0
      obtain ⟨hq1, hq2, hq3, hq4, _⟩ := copyObjSpec fuel (copyVal fuel h v0).2 rest
      have hcp : (copyVal fuel h v0).2.Closed := copyVal_closed fuel h v0 hc
      rw [copyObj_cons]
      unfold objObs
      rw [lookupField_cons, lookupField_cons]
      by_cases hk : (k0 == k) = true
      · simp only [if_pos hk, Option.some_bind]
        have step1 :
            readPath (copyObj fuel (copyVal fuel h v0).2 rest).2
                (copyVal fuel h v0).1 p =
              readPath (copyVal fuel h v0).2 (copyVal fuel h v0).1 p :=
          readPath_ext hcp hq2 p _ hv4
        rw [step1]
        have := hval h v0 hc hv0refs hh1 p
        unfold obs at this
        exact this
      · simp only [if_neg hk]
        have hrest2 : JObj.refsLT (copyVal fuel h v0).2.next rest :=
          objRefsLT_mono hv1 hrestrefs
        have hhrest2 : heightOkObj fuel (copyVal fuel h v0).2 rest = true := by
          rw [(heightOk_ext hc hv2 fuel).2 rest hrestrefs]
          exact hh2
        have step1 := ih (copyVal fuel h v0).2 hcp hrest2 hhrest2 k p
        unfold objObs at step1
        rw [step1]
        have step2 := objObs_ext hc hv2 hrestrefs k p
        unfold objObs at step2
        exact step2

theorem copyValObs : ∀ fuel, CopyValObs fuel := by
  intro fuel
  induction fuel with
  | zero =>
      intro h v hc hrefs hh p
      cases v with
      | jnull => rw [copyVal_jnull]
      | jbool b => rw [copyVal_jbool]
      | jnum n => rw [copyVal_jnum]
      | jstr s => rw [copyVal_jstr]
      | ref a => rw [heightOk_ref_zero] at hh; cases hh
  | succ n ihn =>
      have hobj := copyObjObs_of_val ihn
      intro h v hc hrefs hh p
      cases v with
      | jnull => rw [copyVal_jnull]
      | jbool b => rw [copyVal_jbool]
      | jnum m => rw [copyVal_jnum]
      | jstr s => rw [copyVal_jstr]
      | ref a =>
          rw [heightOk_ref_succ] at hh
          cases hla : h.lookup a with
          | none => rw [hla] at hh; cases hh
          | some o =>
              rw [hla] at hh
              simp only at hh
              rw [copyVal_ref_some n h a o hla]
              obtain ⟨ho1, ho2, ho3, ho4, _⟩ := copyObjSpec n h o
              have hco : (copyObj n h o).2.Closed := copyObj_closed n h o hc
              have horefs : JObj.refsLT h.next o := hc.lookup_refsLT hla
              cases p with
              | nil => simp [obs, readPath, refNorm]
              | cons k rest =>
                  have halloc :
                      (((copyObj n h o).2.alloc (copyObj n h o).1).2).lookup
                          (copyObj n h o).2.next = some (copyObj n h o).1 :=
                    lookup_alloc_self (copyObj n h o).2 (copyObj n h o).1
                  rw [obs_ref_cons halloc k rest, obs_ref_cons hla k rest]
                  have hagree : ∀ b, b < (copyObj n h o).2.next →
                      (((copyObj n h o).2.alloc (copyObj n h o).1).2).lookup b =
                        (copyObj n h o).2.lookup b := by
                    intro b hb
                    exact lookup_alloc_ne (copyObj n h o).2 (copyObj n h o).1 (by omega)
                  rw [objObs_ext hco hagree ho4 k rest]
                  exact hobj h o hc horefs hh k rest

/-! ## StoreWorker (`store.worker.ts`)

The store's `BehaviorSubject` holds the current snapshot: a plain object on
the heap, modelled by its address `st`.  Every occurrence of `this.map` in the
source evaluates `Map(DeepCopyPrimitive(this.state$.getValue()))`, i.e. makes
a fresh deep copy of the current snapshot; `Immutable.Map` operations over it
are modelled by `readPath`/`mapSetTop`/`mapSetIn`.  `DeepFreezePrimitive` does
not change object contents, only write-protects them, so it is the identity on
the heap model (we prove the *stronger* statements in which external mutation
of frozen snapshots is allowed to succeed). -/

namespace StoreWorker

/-- `PrepSearchKeyPath` (source lines 445-451): a string path is split on `.`
(JavaScript `''.split('.') = ['']`, and `String.splitOn` agrees); an array is
passed through.  The non-array, non-string case (mapped to `[]` in the source)
is not representable in the typed embedding. -/
def PrepSearchKeyPath : String ⊕ List String → List String
  | .inl s => s.splitOn "."
  | .inr l => l

/-- `get state()` (source lines 61-63): `DeepFreezePrimitive(this.map.toObject())`
— a deep copy of the current snapshot.  Returns the copy and the extended
heap. -/
def state (fuel : Nat) (h : Heap) (st : Nat) : JVal × Heap :=
  copyVal fuel h (.ref st)

/-- `get(key, notSetValue)` (source lines 122-130): reads the key from a fresh
copy of the snapshot; logs (but does not throw) when the key is absent and
returns `notSetValue`. -/
def get (fuel : Nat) (h : Heap) (st : Nat) (key : String) (notSetValue : JVal) :
    JVal × Heap :=
  let m := copyVal fuel h (.ref st)
  ((readPath m.2 m.1 [key]).getD notSetValue, m.2)

/-- `getIn(searchKeyPath, notSetValue)` (source lines 159-172). -/
def getIn (fuel : Nat) (h : Heap) (st : Nat) (searchKeyPath : String ⊕ List String)
    (notSetValue : JVal) : JVal × Heap :=
  let kp := PrepSearchKeyPath searchKeyPath
  let m := copyVal fuel h (.ref st)
  ((readPath m.2 m.1 kp).getD notSetValue, m.2)

/-- `Immutable.Map.set(key, x).toObject()`: a new top-level object with field
`key` replaced. -/
def mapSetTop (h : Heap) (v : JVal) (key : String) (x : JVal) : JVal × Heap :=
  match v with
  | .ref a =>
      match h.lookup a with
      | some o =>
          let r := h.alloc (setField o key x)
          (.ref r.1, r.2)
      | none => (v, h)
  | _ => (v, h)

/-- `Immutable.Map.setIn(path, x)`: persistent update along `path`, allocating
a new node per traversed level and sharing the rest.  The missing-path cases
are unreachable behind the worker's `hasIn` guard. -/
def mapSetIn (h : Heap) (v : JVal) : List String → JVal → JVal × Heap
  | [], x => (x, h)
  | k :: rest, x =>
      match v with
      | .ref a =>
          match h.lookup a with
          | some o =>
              match lookupField o k with
              | some v1 =>
                  let r := mapSetIn h v1 rest x
                  let q := r.2.alloc (setField o k r.1)
                  (.ref q.1, q.2)
              | none => (v, h)
          | none => (v, h)
      | _ => (v, h)

/-- `set(key, value)` (source lines 314-328): throws on an empty key, throws
when the key is absent from the current snapshot (checked on a fresh
`this.map` copy), otherwise publishes
`DeepFreezePrimitive(this.map.set(key, DeepCopyPrimitive(value)).toObject())`
as the new snapshot. -/
def set (fuel : Nat) (h : Heap) (st : Nat) (key : String) (value : JVal) :
    Except String (Nat × Heap) :=
  if key = "" then .error "[set] Invalid key. Non-empty string expected."
  else
    let m1 := copyVal fuel h (.ref st)
    if (readPath m1.2 m1.1 [key]).isSome then
      let m2 := copyVal fuel m1.2 (.ref st)
      let c := copyVal fuel m2.2 value
      let r := mapSetTop c.2 m2.1 key c.1
      match r.1 with
      | .ref a => .ok (a, r.2)
      | _ => .error "[set] Internal error: snapshot root is not an object."
    else .error ("[set] Key " ++ key ++ " does not exist in the state.")

/-- `setIn(searchKeyPath, value)` (source lines 344-364): throws on an empty
path, throws when the path is absent (`hasIn` on a fresh copy), otherwise
publishes the persistent update as the new snapshot. -/
def setIn (fuel : Nat) (h : Heap) (st : Nat) (searchKeyPath : String ⊕ List String)
    (value : JVal) : Except String (Nat × Heap) :=
  let kp := PrepSearchKeyPath searchKeyPath
  if kp.isEmpty then
    .error "[setIn] Invalid search key path. Non-empty array or string expected."
  else
    let m1 := copyVal fuel h (.ref st)
    if (readPath m1.2 m1.1 kp).isSome then
      let m2 := copyVal fuel m1.2 (.ref st)
      let c := copyVal fuel m2.2 value
      let r := mapSetIn c.2 m2.1 kp c.1
      match r.1 with
      | .ref a => .ok (a, r.2)
      | _ => .error "[setIn] Internal error: snapshot root is not an object."
    else .error "[setIn] Search key path does not exist in the state."

end StoreWorker

theorem obs_none_iff {h : Heap} {v : JVal} {p : List String} :
    obs h v p = none ↔ readPath h v p = none := by
  unfold obs
  exact Option.map_eq_none'

/-- Helper: the deep copy of an absent key/path is still absent. -/
theorem copy_readPath_none {fuel : Nat} {h : Heap} {st : Nat} (hc : h.Closed)
    (hst : st < h.next) (hh : heightOk fuel h (.ref st) = true) {p : List String}
    (habs : readPath h (.ref st) p = none) :
    readPath (copyVal fuel h (.ref st)).2 (copyVal fuel h (.ref st)).1 p = none := by
  have hobs := copyValObs fuel h (.ref st) hc hst hh p
  rw [obs_none_iff.mpr habs] at hobs
  exact obs_none_iff.mp hobs

/-- **C3.**  For every well-formed store snapshot and every key and path absent
from the current snapshot: `set` and `setIn` throw (returning the error before
`state$.next` is reached, so the snapshot is never replaced — conjunct 5 adds
that even the side-effect of the failing call, the scratch deep copy, leaves
every read of the snapshot unchanged), while `get` and `getIn` do not throw
and return the supplied `notSetValue`. -/
theorem storeWorker_absent_key_path (fuel : Nat) (h : Heap) (st : Nat)
    (key : String) (path : String ⊕ List String) (value nsv : JVal)
    (hc : h.Closed) (hst : st < h.next) (hh : heightOk fuel h (.ref st) = true)
    (hkey : readPath h (.ref st) [key] = none)
    (hpath : readPath h (.ref st) (StoreWorker.PrepSearchKeyPath path) = none) :
    (∃ msg, StoreWorker.set fuel h st key value = .error msg) ∧
    (StoreWorker.get fuel h st key nsv).1 = nsv ∧
    (∃ msg, StoreWorker.setIn fuel h st path value = .error msg) ∧
    (StoreWorker.getIn fuel h st path nsv).1 = nsv ∧
    (∀ p, readPath (copyVal fuel h (.ref st)).2 (.ref st) p = readPath h (.ref st) p) := by
  have hkey' := copy_readPath_none hc hst hh hkey
  have hpath' := copy_readPath_none hc hst hh hpath
  refine ⟨?_, ?_, ?_, ?_, ?_⟩
  · by_cases hk : key = ""
    · exact ⟨"[set] Invalid key. Non-empty string expected.", by
        unfold StoreWorker.set
        rw [if_pos hk]⟩
    · exact ⟨"[set] Key " ++ key ++ " does not exist in the state.", by
        unfold StoreWorker.set
        rw [if_neg hk]
        simp [hkey']⟩
  · unfold StoreWorker.get
    simp [hkey']
  · by_cases hk : (StoreWorker.PrepSearchKeyPath path).isEmpty
    · exact ⟨"[setIn] Invalid search key path. Non-empty array or string expected.", by
        unfold StoreWorker.setIn
        rw [if_pos hk]⟩
    · exact ⟨"[setIn] Search key path does not exist in the state.", by
        unfold StoreWorker.setIn
        rw [if_neg hk]
        simp [hpath']⟩
  · unfold StoreWorker.getIn
    simp [hpath']
  · intro p
    obtain ⟨_, h2, _, _, _⟩ := copyValSpec fuel h (.ref st)
    exact readPath_ext hc h2 p (.ref st) hst

/-- Concrete instance for `storeWorker_absent_key_path`: the one-cell store
`{key: 'value'}` with absent key `'missing'` and absent path
`'missing.deep'`. -/
theorem storeWorker_absent_key_path_witness :
    (Heap.Closed ⟨[(0, [("key", JVal.jstr "value")])], 1⟩) ∧
    ((∃ msg, StoreWorker.set 2 ⟨[(0, [("key", JVal.jstr "value")])], 1⟩ 0 "missing"
        (.jstr "x") = .error msg) ∧
      (StoreWorker.get 2 ⟨[(0, [("key", JVal.jstr "value")])], 1⟩ 0 "missing"
        (.jstr "fallback")).1 = .jstr "fallback" ∧
      (∃ msg, StoreWorker.setIn 2 ⟨[(0, [("key", JVal.jstr "value")])], 1⟩ 0
        (.inr ["missing", "deep"]) (.jstr "x") = .error msg) ∧
      (StoreWorker.getIn 2 ⟨[(0, [("key", JVal.jstr "value")])], 1⟩ 0
        (.inr ["missing", "deep"]) (.jstr "fallback")).1 = .jstr "fallback" ∧
      (∀ p, readPath (copyVal 2 ⟨[(0, [("key", JVal.jstr "value")])], 1⟩ (.ref 0)).2
          (.ref 0) p =
        readPath ⟨[(0, [("key", JVal.jstr "value")])], 1⟩ (.ref 0) p)) :=
  ⟨by decide,
    storeWorker_absent_key_path 2 ⟨[(0, [("key", JVal.jstr "value")])], 1⟩ 0 "missing"
      (.inr ["missing", "deep"]) (.jstr "x") (.jstr "fallback") (by decide) (by decide)
      (by simp [heightOk_ref_succ, heightOkObj_cons, heightOkObj_nil, heightOk_jstr,
        Heap.lookup, List.find?])
      (by decide) (by decide)⟩

/-- **C4.**  `store.state` hands out a defensive deep copy: (1) the returned
snapshot references only freshly allocated cells (disjoint from every object
the store reads through its internal root `st`); (2) it is observationally a
faithful copy; (3) after *any* external mutation of the snapshot — modelled as
an arbitrary heap `h''` that agrees with the post-read heap on all addresses
below the old allocation bound, i.e. only objects outside the store-reachable
region were rewritten — every read through the store's internal root is
unchanged, and a subsequent `store.state` read still observes the original
values. -/
theorem storeWorker_state_deep_copy (fuel : Nat) (h : Heap) (st : Nat)
    (hc : h.Closed) (hst : st < h.next) (hh : heightOk fuel h (.ref st) = true) :
    JVal.refsGE h.next (StoreWorker.state fuel h st).1 ∧
    (∀ p, obs (StoreWorker.state fuel h st).2 (StoreWorker.state fuel h st).1 p =
      obs h (.ref st) p) ∧
    (∀ h'' : Heap, h.next ≤ h''.next →
      (∀ a, a < h.next → h''.lookup a = (StoreWorker.state fuel h st).2.lookup a) →
      (∀ p, readPath h'' (.ref st) p = readPath h (.ref st) p) ∧
      (h''.Closed →
        ∀ p, obs (StoreWorker.state fuel h'' st).2 (StoreWorker.state fuel h'' st).1 p =
          obs h (.ref st) p)) := by
  unfold StoreWorker.state
  obtain ⟨s1, s2, s3, s4, _⟩ := copyValSpec fuel h (.ref st)
  refine ⟨s3, copyValObs fuel h (.ref st) hc hst hh, ?_⟩
  intro h'' hnext hagree
  have hagree' : ∀ a, a < h.next → h''.lookup a = h.lookup a := by
    intro a ha
    rw [hagree a ha, s2 a ha]
  have hreads : ∀ p, readPath h'' (.ref st) p = readPath h (.ref st) p :=
    fun p =>
      readPath_congr (fun a => a < h.next) hagree' (closed_refs_cond hc) p (.ref st)
        (refsLT_elim hst)
  refine ⟨hreads, ?_⟩
  intro hc'' p
  have hh'' : heightOk fuel h'' (.ref st) = true := by
    rw [(heightOk_congr (fun a => a < h.next) hagree' (closed_refs_cond hc) fuel).1
      (.ref st) (refsLT_elim hst)]
    exact hh
  have hst'' : st < h''.next := lt_of_lt_of_le hst hnext
  have := copyValObs fuel h'' (.ref st) hc'' hst'' hh'' p
  rw [this]
  unfold obs
  rw [hreads p]

/-- Concrete instance for `storeWorker_state_deep_copy` on the one-cell store
`{key: 'value'}`. -/
theorem storeWorker_state_deep_copy_witness :
    (Heap.Closed ⟨[(0, [("key", JVal.jstr "value")])], 1⟩) ∧
    (JVal.refsGE 1 (StoreWorker.state 2 ⟨[(0, [("key", JVal.jstr "value")])], 1⟩ 0).1 ∧
      (∀ p, obs (StoreWorker.state 2 ⟨[(0, [("key", JVal.jstr "value")])], 1⟩ 0).2
          (StoreWorker.state 2 ⟨[(0, [("key", JVal.jstr "value")])], 1⟩ 0).1 p =
        obs ⟨[(0, [("key", JVal.jstr "value")])], 1⟩ (.ref 0) p) ∧
      (∀ h'' : Heap, 1 ≤ h''.next →
        (∀ a, a < 1 → h''.lookup a =
          (StoreWorker.state 2 ⟨[(0, [("key", JVal.jstr "value")])], 1⟩ 0).2.lookup a) →
        (∀ p, readPath h'' (.ref 0) p =
          readPath ⟨[(0, [("key", JVal.jstr "value")])], 1⟩ (.ref 0) p) ∧
        (h''.Closed →
          ∀ p, obs (StoreWorker.state 2 h'' 0).2 (StoreWorker.state 2 h'' 0).1 p =
            obs ⟨[(0, [("key", JVal.jstr "value")])], 1⟩ (.ref 0) p))) :=
  ⟨by decide,
    storeWorker_state_deep_copy 2 ⟨[(0, [("key", JVal.jstr "value")])], 1⟩ 0
      (by decide) (by decide)
      (by simp [heightOk_ref_succ, heightOkObj_cons, heightOkObj_nil, heightOk_jstr,
        Heap.lookup, List.find?])⟩

theorem alloc_addrsLT {h : Heap} (ha : h.AddrsLT) (o : JObj) :
    (h.alloc o).2.AddrsLT := by
  intro c hc
  rcases List.mem_cons.mp hc with rfl | hc'
  · show h.next < h.next + 1
    omega
  · have := ha c hc'
    show c.1 < h.next + 1
    omega

theorem setField_refsGE {n : Nat} {o : JObj} {x : JVal} (ho : JObj.refsGE n o)
    (hx : JVal.refsGE n x) (k : String) : JObj.refsGE n (setField o k x) := by
  intro e he
  unfold setField at he
  obtain ⟨e0, he0, heq⟩ := List.mem_map.mp he
  by_cases hk : (e0.1 == k) = true
  · rw [if_pos hk] at heq
    rw [← heq]
    exact hx
  · rw [if_neg hk] at heq
    rw [← heq]
    exact ho e0 he0

/-- A deep copy keeps the "self-contained region above `n`" invariant. -/
theorem copy_region_step (fuel : Nat) {n : Nat} (h : Heap) (v : JVal)
    (hn : n ≤ h.next) (haddr : h.AddrsLT) (hreg : h.RegionGE n) :
    (copyVal fuel h v).2.AddrsLT ∧ n ≤ (copyVal fuel h v).2.next ∧
    (∀ a, a < h.next → (copyVal fuel h v).2.lookup a = h.lookup a) ∧
    (copyVal fuel h v).2.RegionGE n := by
  obtain ⟨s1, s2, _, _, s5⟩ := copyValSpec fuel h v
  obtain ⟨sa, sr⟩ := s5 haddr
  refine ⟨sa, le_trans hn s1, s2, ?_⟩
  intro a o hge hl
  by_cases hlt : a < h.next
  · rw [s2 a hlt] at hl
    exact hreg a o hge hl
  · exact objRefsGE_mono hn (sr a o (le_of_not_lt hlt) hl).1

theorem alloc_region {n : Nat} {h : Heap} (hn : n ≤ h.next) (hreg : h.RegionGE n)
    {o : JObj} (ho : JObj.refsGE n o) : (h.alloc o).2.RegionGE n := by
  intro a o' hge hl
  by_cases hb : a = h.next
  · subst hb
    rw [lookup_alloc_self] at hl
    cases hl
    exact ho
  · rw [lookup_alloc_ne h o hb] at hl
    exact hreg a o' hge hl

/-- The specification of `Immutable.Map.setIn` relevant to isolation: it only
allocates, keeps old cells intact, and keeps the region above `n`
self-contained when its inputs reference only that region. -/
theorem mapSetIn_spec {n : Nat} (h : Heap) (v : JVal) (kp : List String) (x : JVal)
    (hn : n ≤ h.next) (haddr : h.AddrsLT) (hreg : h.RegionGE n)
    (hv : JVal.refsGE n v) (hx : JVal.refsGE n x) :
    h.next ≤ (StoreWorker.mapSetIn h v kp x).2.next ∧
    (StoreWorker.mapSetIn h v kp x).2.AddrsLT ∧
    (∀ a, a < h.next → (StoreWorker.mapSetIn h v kp x).2.lookup a = h.lookup a) ∧
    JVal.refsGE n (StoreWorker.mapSetIn h v kp x).1 ∧
    (StoreWorker.mapSetIn h v kp x).2.RegionGE n := by
  induction kp generalizing v with
  | nil => exact ⟨le_refl _, haddr, fun a _ => rfl, hx, hreg⟩
  | cons k rest ih =>
      cases v with
      | ref a =>
          cases hla : h.lookup a with
          | none =>
              have heq : StoreWorker.mapSetIn h (.ref a) (k :: rest) x = (.ref a, h) := by
                simp [StoreWorker.mapSetIn, hla]
              rw [heq]
              exact ⟨le_refl _, haddr, fun a _ => rfl, hv, hreg⟩
          | some o =>
              cases hf : lookupField o k with
              | none =>
                  have heq : StoreWorker.mapSetIn h (.ref a) (k :: rest) x = (.ref a, h) := by
                    simp [StoreWorker.mapSetIn, hla, hf]
                  rw [heq]
                  exact ⟨le_refl _, haddr, fun a _ => rfl, hv, hreg⟩
              | some v1 =>
                  have hv1 : JVal.refsGE n v1 := by
                    obtain ⟨e, he, hev⟩ := lookupField_mem hf
                    exact hev ▸ hreg a o hv hla e he
                  obtain ⟨i1, i2, i3, i4, i5⟩ := ih v1 hv1
                  have hogeN : JObj.refsGE n o := hreg a o hv hla
                  have hcell : JObj.refsGE n
                      (setField o k (StoreWorker.mapSetIn h v1 rest x).1) :=
                    setField_refsGE hogeN i4 k
                  have heq : StoreWorker.mapSetIn h (.ref a) (k :: rest) x =
                      (.ref (StoreWorker.mapSetIn h v1 rest x).2.next,
                       ((StoreWorker.mapSetIn h v1 rest x).2.alloc
                         (setField o k (StoreWorker.mapSetIn h v1 rest x).1)).2) := by
                    simp [StoreWorker.mapSetIn, hla, hf, Heap.alloc]
                  rw [heq]
                  refine ⟨?_, alloc_addrsLT i2 _, ?_, ?_, alloc_region (le_trans hn i1) i5 hcell⟩
                  · show h.next ≤ (StoreWorker.mapSetIn h v1 rest x).2.next + 1
                    omega
                  · intro b hb
                    rw [lookup_alloc_ne _ _ (by omega), i3 b hb]
                  · show n ≤ (StoreWorker.mapSetIn h v1 rest x).2.next
                    omega
      | jnull =>
          exact ⟨le_refl _, haddr, fun a _ => rfl, hv, hreg⟩
      | jbool b =>
          exact ⟨le_refl _, haddr, fun a _ => rfl, hv, hreg⟩
      | jnum m =>
          exact ⟨le_refl _, haddr, fun a _ => rfl, hv, hreg⟩
      | jstr s =>
          exact ⟨le_refl _, haddr, fun a _ => rfl, hv, hreg⟩

theorem regionGE_of_addrsLT {h : Heap} (ha : h.AddrsLT) : h.RegionGE h.next :=
  fun a _ hge hl => absurd (lookup_lt_of_addrsLT ha hl) (by omega)

theorem regionGE_closure {h : Heap} {n : Nat} (hr : h.RegionGE n) :
    ∀ a o, n ≤ a → h.lookup a = some o → ∀ e ∈ o, ∀ b, e.2 = JVal.ref b → n ≤ b := by
  intro a o hge hl e he b hb
  have := hr a o hge hl e he
  rw [hb] at this
  exact this

/-- Reads from a root inside a self-contained region are insensitive to
changes outside the region. -/
theorem region_isolation {h' : Heap} {n st' : Nat} (hr : h'.RegionGE n)
    (hst' : n ≤ st') :
    ∀ h'' : Heap, (∀ a, n ≤ a → h''.lookup a = h'.lookup a) →
      ∀ p, readPath h'' (.ref st') p = readPath h' (.ref st') p := by
  intro h'' hag p
  refine readPath_congr (fun a => n ≤ a) hag (regionGE_closure hr) p (.ref st') ?_
  intro b hb
  cases hb
  exact hst'

theorem copy_readPath_isSome {fuel : Nat} {h : Heap} {st : Nat} (hc : h.Closed)
    (hst : st < h.next) (hh : heightOk fuel h (.ref st) = true) {p : List String}
    (hsome : (readPath h (.ref st) p).isSome = true) :
    (readPath (copyVal fuel h (.ref st)).2 (copyVal fuel h (.ref st)).1 p).isSome
      = true := by
  have hobs := copyValObs fuel h (.ref st) hc hst hh p
  unfold obs at hobs
  cases hr : readPath h (.ref st) p with
  | none => rw [hr] at hsome; cases hsome
  | some v =>
      rw [hr] at hobs
      cases hl : readPath (copyVal fuel h (.ref st)).2 (copyVal fuel h (.ref st)).1 p with
      | none => rw [hl] at hobs; simp at hobs
      | some w => simp [hl]

/-- `set` on a guard-passing call evaluates to its success branch. -/
theorem set_eq_of_guards {fuel : Nat} {h : Heap} {st : Nat} {key : String}
    {value : JVal} (hkey : ¬ key = "")
    (hcond : (readPath (copyVal fuel h (.ref st)).2 (copyVal fuel h (.ref st)).1
      [key]).isSome = true) :
    StoreWorker.set fuel h st key value =
      (match (StoreWorker.mapSetTop
          (copyVal fuel (copyVal fuel (copyVal fuel h (.ref st)).2 (.ref st)).2 value).2
          (copyVal fuel (copyVal fuel h (.ref st)).2 (.ref st)).1 key
          (copyVal fuel (copyVal fuel (copyVal fuel h (.ref st)).2 (.ref st)).2 value).1).1
        with
      | .ref a => .ok (a,
          (StoreWorker.mapSetTop
            (copyVal fuel (copyVal fuel (copyVal fuel h (.ref st)).2 (.ref st)).2 value).2
            (copyVal fuel (copyVal fuel h (.ref st)).2 (.ref st)).1 key
            (copyVal fuel (copyVal fuel (copyVal fuel h (.ref st)).2 (.ref st)).2 value).1).2)
      | _ => .error "[set] Internal error: snapshot root is not an object.") := by
  unfold StoreWorker.set
  rw [if_neg hkey]
  simp only [hcond, if_true]

/-- A successful `set(key, value)` publishes a snapshot built entirely from
freshly allocated cells: the new root is fresh, pre-existing cells are
untouched, the new snapshot's region is self-contained, and therefore any
later mutation of pre-existing objects — in particular of the caller's
`value`, whose graph lies below the old allocation bound — changes no read
through the new snapshot. -/
theorem storeWorker_set_success (n : Nat) (h : Heap) (st : Nat) (key : String)
    (value : JVal) (hc : h.Closed) (hst : st < h.next)
    (hh : heightOk (n + 1) h (.ref st) = true) (hkey : ¬ key = "")
    (hsome : (readPath h (.ref st) [key]).isSome = true) :
    ∃ st' h', StoreWorker.set (n + 1) h st key value = .ok (st', h') ∧
      h.next ≤ st' ∧
      (∀ a, a < h.next → h'.lookup a = h.lookup a) ∧
      h'.RegionGE h.next ∧
      (∀ h'' : Heap, (∀ a, h.next ≤ a → h''.lookup a = h'.lookup a) →
        ∀ p, readPath h'' (.ref st') p = readPath h' (.ref st') p) := by
  obtain ⟨o0, hla⟩ : ∃ o0, h.lookup st = some o0 := by
    have hh' := hh
    rw [heightOk_ref_succ] at hh'
    cases hl : h.lookup st with
    | none => rw [hl] at hh'; cases hh'
    | some o => exact ⟨o, rfl⟩
  obtain ⟨a1, a2, a3, a4, _⟩ := copyValSpec (n + 1) h (.ref st)
  have hc1 : (copyVal (n + 1) h (.ref st)).2.Closed := copyVal_closed _ _ _ hc
  obtain ⟨r1addr, r1le, r1agree, r1reg⟩ :=
    copy_region_step (n + 1) h (.ref st) (le_refl _) hc.1 (regionGE_of_addrsLT hc.1)
  set h1 := (copyVal (n + 1) h (.ref st)).2 with hh1
  have hla1 : h1.lookup st = some o0 := by rw [a2 st hst]; exact hla
  have hm2eq := copyVal_ref_some n h1 st o0 hla1
  obtain ⟨b1, b2, b3, b4, _⟩ := copyValSpec (n + 1) h1 (.ref st)
  obtain ⟨r2addr, r2le, r2agree, r2reg⟩ :=
    copy_region_step (n + 1) h1 (.ref st) r1le r1addr r1reg
  have hc2 : (copyVal (n + 1) h1 (.ref st)).2.Closed := copyVal_closed _ _ _ hc1
  obtain ⟨d1, _, _, _, _⟩ := copyObjSpec n h1 o0
  set A := (copyObj n h1 o0).2.next with hA
  set O2 := (copyObj n h1 o0).1 with hO2
  set h2 := (copyVal (n + 1) h1 (.ref st)).2 with hh2
  have h2next : h2.next = A + 1 := by
    rw [hh2, hm2eq]
    rfl
  have hm21 : (copyVal (n + 1) h1 (.ref st)).1 = .ref A := by rw [hm2eq]
  have hlA : h2.lookup A = some O2 := by
    rw [hh2, hm2eq]
    exact lookup_alloc_self (copyObj n h1 o0).2 O2
  obtain ⟨c1, c2, c3, c4, _⟩ := copyValSpec (n + 1) h2 value
  obtain ⟨r3addr, r3le, r3agree, r3reg⟩ :=
    copy_region_step (n + 1) h2 value r2le r2addr r2reg
  set hC := (copyVal (n + 1) h2 value).2 with hhC
  set cv := (copyVal (n + 1) h2 value).1 with hcv
  have hAlt : A < h2.next := by omega
  have hlAC : hC.lookup A = some O2 := by rw [c2 A hAlt]; exact hlA
  have hAGE : h.next ≤ A := le_trans a1 d1
  have hO2GE : JObj.refsGE h.next O2 := r3reg A O2 hAGE hlAC
  have hcvGE : JVal.refsGE h.next cv := refsGE_mono r2le c3
  have hm1some :
      (readPath h1 (copyVal (n + 1) h (.ref st)).1 [key]).isSome = true :=
    copy_readPath_isSome hc hst hh hsome
  have hfinal := @set_eq_of_guards (n + 1) h st key value hkey hm1some
  rw [← hh1, ← hh2, ← hhC, ← hcv, hm21] at hfinal
  have hmst : StoreWorker.mapSetTop hC (.ref A) key cv =
      (.ref hC.next, (hC.alloc (setField O2 key cv)).2) := by
    simp [StoreWorker.mapSetTop, hlAC, Heap.alloc]
  rw [hmst] at hfinal
  simp only at hfinal
  have hfreg : ((hC.alloc (setField O2 key cv)).2).RegionGE h.next :=
    alloc_region (le_trans hAGE (by omega)) r3reg (setField_refsGE hO2GE hcvGE key)
  refine ⟨hC.next, (hC.alloc (setField O2 key cv)).2, hfinal, ?_, ?_, hfreg, ?_⟩
  · omega
  · intro a ha
    rw [lookup_alloc_ne hC _ (by omega), c2 a (by omega), b2 a (by omega), a2 a ha]
  · exact region_isolation hfreg (by omega)

/-- `setIn` on a guard-passing call evaluates to its success branch. -/
theorem setIn_eq_of_guards {fuel : Nat} {h : Heap} {st : Nat}
    {path : String ⊕ List String} {value : JVal}
    (hne : (StoreWorker.PrepSearchKeyPath path).isEmpty = false)
    (hcond : (readPath (copyVal fuel h (.ref st)).2 (copyVal fuel h (.ref st)).1
      (StoreWorker.PrepSearchKeyPath path)).isSome = true) :
    StoreWorker.setIn fuel h st path value =
      (match (StoreWorker.mapSetIn
          (copyVal fuel (copyVal fuel (copyVal fuel h (.ref st)).2 (.ref st)).2 value).2
          (copyVal fuel (copyVal fuel h (.ref st)).2 (.ref st)).1
          (StoreWorker.PrepSearchKeyPath path)
          (copyVal fuel (copyVal fuel (copyVal fuel h (.ref st)).2 (.ref st)).2 value).1).1
        with
      | .ref a => .ok (a,
          (StoreWorker.mapSetIn
            (copyVal fuel (copyVal fuel (copyVal fuel h (.ref st)).2 (.ref st)).2 value).2
            (copyVal fuel (copyVal fuel h (.ref st)).2 (.ref st)).1
            (StoreWorker.PrepSearchKeyPath path)
            (copyVal fuel (copyVal fuel (copyVal fuel h (.ref st)).2 (.ref st)).2 value).1).2)
      | _ => .error "[setIn] Internal error: snapshot root is not an object.") := by
  unfold StoreWorker.setIn
  rw [if_neg (by rw [hne]; exact Bool.false_ne_true)]
  simp only [hcond, if_true]

/-- A successful `setIn(path, value)` likewise publishes a snapshot built
entirely from freshly allocated cells, so later mutation of pre-existing
objects (including the caller's `value`) changes no read through it. -/
theorem storeWorker_setIn_success (n : Nat) (h : Heap) (st : Nat)
    (path : String ⊕ List String) (value : JVal) (hc : h.Closed)
    (hst : st < h.next) (hh : heightOk (n + 1) h (.ref st) = true)
    (hne : (StoreWorker.PrepSearchKeyPath path).isEmpty = false)
    (hsome : (readPath h (.ref st) (StoreWorker.PrepSearchKeyPath path)).isSome = true) :
    ∃ st' h', StoreWorker.setIn (n + 1) h st path value = .ok (st', h') ∧
      h.next ≤ st' ∧
      (∀ a, a < h.next → h'.lookup a = h.lookup a) ∧
      h'.RegionGE h.next ∧
      (∀ h'' : Heap, (∀ a, h.next ≤ a → h''.lookup a = h'.lookup a) →
        ∀ p, readPath h'' (.ref st') p = readPath h' (.ref st') p) := by
  obtain ⟨o0, hla⟩ : ∃ o0, h.lookup st = some o0 := by
    have hh' := hh
    rw [heightOk_ref_succ] at hh'
    cases hl : h.lookup st with
    | none => rw [hl] at hh'; cases hh'
    | some o => exact ⟨o, rfl⟩
  obtain ⟨kp0, kprest, hkp⟩ : ∃ k rest, StoreWorker.PrepSearchKeyPath path = k :: rest := by
    cases hp : StoreWorker.PrepSearchKeyPath path with
    | nil => rw [hp] at hne; cases hne
    | cons k rest => exact ⟨k, rest, rfl⟩
  obtain ⟨a1, a2, a3, a4, _⟩ := copyValSpec (n + 1) h (.ref st)
  have hc1 : (copyVal (n + 1) h (.ref st)).2.Closed := copyVal_closed _ _ _ hc
  obtain ⟨r1addr, r1le, r1agree, r1reg⟩ :=
    copy_region_step (n + 1) h (.ref st) (le_refl _) hc.1 (regionGE_of_addrsLT hc.1)
  set h1 := (copyVal (n + 1) h (.ref st)).2 with hh1
  have hla1 : h1.lookup st = some o0 := by rw [a2 st hst]; exact hla
  have hhU : heightOk (n + 1) h1 (.ref st) = true := by
    rw [(heightOk_ext hc a2 (n + 1)).1 (.ref st) hst]
    exact hh
  have hm2eq := copyVal_ref_some n h1 st o0 hla1
  obtain ⟨b1, b2, b3, b4, _⟩ := copyValSpec (n + 1) h1 (.ref st)
  obtain ⟨r2addr, r2le, r2agree, r2reg⟩ :=
    copy_region_step (n + 1) h1 (.ref st) r1le r1addr r1reg
  have hc2 : (copyVal (n + 1) h1 (.ref st)).2.Closed := copyVal_closed _ _ _ hc1
  obtain ⟨d1, _, _, _, _⟩ := copyObjSpec n h1 o0
  set A := (copyObj n h1 o0).2.next with hA
  set O2 := (copyObj n h1 o0).1 with hO2
  set h2 := (copyVal (n + 1) h1 (.ref st)).2 with hh2
  have h2next : h2.next = A + 1 := by
    rw [hh2, hm2eq]
    rfl
  have hm21 : (copyVal (n + 1) h1 (.ref st)).1 = .ref A := by rw [hm2eq]
  have hlA : h2.lookup A = some O2 := by
    rw [hh2, hm2eq]
    exact lookup_alloc_self (copyObj n h1 o0).2 O2
  obtain ⟨c1, c2, c3, c4, _⟩ := copyValSpec (n + 1) h2 value
  obtain ⟨r3addr, r3le, r3agree, r3reg⟩ :=
    copy_region_step (n + 1) h2 value r2le r2addr r2reg
  set hC := (copyVal (n + 1) h2 value).2 with hhC
  set cv := (copyVal (n + 1) h2 value).1 with hcv
  have hAlt : A < h2.next := by omega
  have hlAC : hC.lookup A = some O2 := by rw [c2 A hAlt]; exact hlA
  have hAGE : h.next ≤ A := le_trans a1 d1
  have hcvGE : JVal.refsGE h.next cv := refsGE_mono r2le c3
  have hm1some :
      (readPath h1 (copyVal (n + 1) h (.ref st)).1
        (StoreWorker.PrepSearchKeyPath path)).isSome = true :=
    copy_readPath_isSome hc hst hh hsome
  -- presence through the second copy, extended into the heap after the
  -- value copy
  have hsome1 : (readPath h1 (.ref st) (StoreWorker.PrepSearchKeyPath path)).isSome
      = true := by
    rw [readPath_ext hc a2 _ (.ref st) hst]
    exact hsome
  have hsome2 : (readPath h2 (.ref A) (StoreWorker.PrepSearchKeyPath path)).isSome
      = true := by
    have := copy_readPath_isSome hc1 (lt_of_lt_of_le hst r1le) hhU hsome1
    rw [hm21] at this
    exact this
  have hsomeC : (readPath hC (.ref A) (StoreWorker.PrepSearchKeyPath path)).isSome
      = true := by
    rw [readPath_ext hc2 c2 _ (.ref A) hAlt]
    exact hsome2
  obtain ⟨v1, hf1⟩ : ∃ v1, lookupField O2 kp0 = some v1 := by
    rw [hkp] at hsomeC
    cases hf : lookupField O2 kp0 with
    | none =>
        rw [show readPath hC (.ref A) (kp0 :: kprest) = none from by
          simp [readPath, hlAC, hf]] at hsomeC
        cases hsomeC
    | some v1 => exact ⟨v1, rfl⟩
  have hfinal := @setIn_eq_of_guards (n + 1) h st path value hne hm1some
  rw [← hh1, ← hh2, ← hhC, ← hcv, hm21, hkp] at hfinal
  have hmsi : StoreWorker.mapSetIn hC (.ref A) (kp0 :: kprest) cv =
      (.ref (StoreWorker.mapSetIn hC v1 kprest cv).2.next,
       ((StoreWorker.mapSetIn hC v1 kprest cv).2.alloc
         (setField O2 kp0 (StoreWorker.mapSetIn hC v1 kprest cv).1)).2) := by
    simp [StoreWorker.mapSetIn, hlAC, hf1, Heap.alloc]
  obtain ⟨s1, s2, s3, s4, s5⟩ :=
    mapSetIn_spec hC (.ref A) (kp0 :: kprest) cv r3le r3addr r3reg hAGE hcvGE
  rw [hmsi] at hfinal s1 s2 s3 s4 s5
  simp only at hfinal
  refine ⟨(StoreWorker.mapSetIn hC v1 kprest cv).2.next,
    ((StoreWorker.mapSetIn hC v1 kprest cv).2.alloc
      (setField O2 kp0 (StoreWorker.mapSetIn hC v1 kprest cv).1)).2,
    hfinal, s4, ?_, s5, region_isolation s5 s4⟩
  intro a ha
  rw [s3 a (by omega), c2 a (by omega), b2 a (by omega), a2 a ha]

/-- **C9.**  `set` and `setIn` pass the value through `DeepCopyPrimitive`
before storing it: every successful `set(key, value)`/`setIn(path, value)`
publishes a snapshot whose root is fresh (`h.next ≤ st'`) and whose region is
self-contained (`RegionGE`), while every pre-existing cell is untouched.
Consequently, mutating the caller's `value` afterwards — `value`'s object
graph lies below the old bound `h.next` (hypothesis `hvalue` plus heap
closure), so any such mutation yields a heap `h''` agreeing with `h'` on all
addresses at or above `h.next` — changes no read through the new snapshot
(in particular not the value read back for that key or path). -/
theorem storeWorker_set_value_deep_copied (n : Nat) (h : Heap) (st : Nat)
    (key : String) (path : String ⊕ List String) (value : JVal)
    (hc : h.Closed) (hst : st < h.next) (hh : heightOk (n + 1) h (.ref st) = true)
    (hvalue : JVal.refsLT h.next value) :
    (¬ key = "" → (readPath h (.ref st) [key]).isSome = true →
      ∃ st' h', StoreWorker.set (n + 1) h st key value = .ok (st', h') ∧
        h.next ≤ st' ∧
        (∀ a, a < h.next → h'.lookup a = h.lookup a) ∧
        h'.RegionGE h.next ∧
        (∀ h'' : Heap, (∀ a, h.next ≤ a → h''.lookup a = h'.lookup a) →
          ∀ p, readPath h'' (.ref st') p = readPath h' (.ref st') p)) ∧
    ((StoreWorker.PrepSearchKeyPath path).isEmpty = false →
      (readPath h (.ref st) (StoreWorker.PrepSearchKeyPath path)).isSome = true →
      ∃ st' h', StoreWorker.setIn (n + 1) h st path value = .ok (st', h') ∧
        h.next ≤ st' ∧
        (∀ a, a < h.next → h'.lookup a = h.lookup a) ∧
        h'.RegionGE h.next ∧
        (∀ h'' : Heap, (∀ a, h.next ≤ a → h''.lookup a = h'.lookup a) →
          ∀ p, readPath h'' (.ref st') p = readPath h' (.ref st') p)) :=
  ⟨fun hk hs => storeWorker_set_success n h st key value hc hst hh hk hs,
   fun hne hs => storeWorker_setIn_success n h st path value hc hst hh hne hs⟩

/-- Concrete instance for `storeWorker_set_value_deep_copied`: setting the
present key `'key'` (and the present path `['key']`) of the one-cell store
`{key: 'value'}`. -/
theorem storeWorker_set_value_deep_copied_witness :
    (∃ st' h', StoreWorker.set 2 ⟨[(0, [("key", JVal.jstr "value")])], 1⟩ 0 "key"
        (.jstr "x") = .ok (st', h') ∧
      1 ≤ st' ∧
      (∀ a, a < 1 → h'.lookup a =
        Heap.lookup ⟨[(0, [("key", JVal.jstr "value")])], 1⟩ a) ∧
      h'.RegionGE 1 ∧
      (∀ h'' : Heap, (∀ a, 1 ≤ a → h''.lookup a = h'.lookup a) →
        ∀ p, readPath h'' (.ref st') p = readPath h' (.ref st') p)) ∧
    (∃ st' h', StoreWorker.setIn 2 ⟨[(0, [("key", JVal.jstr "value")])], 1⟩ 0
        (.inr ["key"]) (.jstr "x") = .ok (st', h') ∧
      1 ≤ st' ∧
      (∀ a, a < 1 → h'.lookup a =
        Heap.lookup ⟨[(0, [("key", JVal.jstr "value")])], 1⟩ a) ∧
      h'.RegionGE 1 ∧
      (∀ h'' : Heap, (∀ a, 1 ≤ a → h''.lookup a = h'.lookup a) →
        ∀ p, readPath h'' (.ref st') p = readPath h' (.ref st') p)) :=
  ⟨(storeWorker_set_value_deep_copied 1 ⟨[(0, [("key", JVal.jstr "value")])], 1⟩ 0
      "key" (.inr ["key"]) (.jstr "x") (by decide) (by decide)
      (by simp [heightOk_ref_succ, heightOkObj_cons, heightOkObj_nil, heightOk_jstr,
        Heap.lookup, List.find?])
      (by decide)).1 (by decide) (by decide),
   (storeWorker_set_value_deep_copied 1 ⟨[(0, [("key", JVal.jstr "value")])], 1⟩ 0
      "key" (.inr ["key"]) (.jstr "x") (by decide) (by decide)
      (by simp [heightOk_ref_succ, heightOkObj_cons, heightOkObj_nil, heightOk_jstr,
        Heap.lookup, List.find?])
      (by decide)).2 (by decide) (by decide)⟩

/-! ## C1: the ExponentiallyBackoff delay formula -/

/-- The `ExponentiallyBackoff` delay at a constant-delay configuration is the
constant itself, *not* capped by `maxDelay`: with `initialDelay = 1000`,
`maxDelay = 100`, `disableAndUseConstantDelayOf = 200` the scheduled delay is
`200`, which differs from the spec's claimed
`min(constantDelay ?? initialDelay·2^n, maxDelay) = 100` and exceeds
`maxDelay`. -/
theorem exponentiallyBackoff_constantDelay_uncapped :
    ExponentiallyBackoffDelay 1000 100 (some 200) 1 = 200 ∧
    SpecClaimedDelay 1000 100 (some 200) 1 = 100 ∧
    ExponentiallyBackoffDelay 1000 100 (some 200) 1 ≠
      SpecClaimedDelay 1000 100 (some 200) 1 ∧
    ¬ ExponentiallyBackoffDelay 1000 100 (some 200) 1 ≤ 100 := by
  decide

/-- **C1 (amended).**  The delay before the `n`-th resubscription is
`min(initialDelay·2^n, maxDelay)` when no constant delay is configured — in
particular it never exceeds `maxDelay` — while a configured constant delay is
used as-is, bypassing the `maxDelay` cap. -/
theorem exponentiallyBackoffDelay_spec (initialDelay maxDelay c retryCount : Nat) :
    ExponentiallyBackoffDelay initialDelay maxDelay none retryCount =
      min (initialDelay * 2 ^ retryCount) maxDelay ∧
    ExponentiallyBackoffDelay initialDelay maxDelay none retryCount ≤ maxDelay ∧
    ExponentiallyBackoffDelay initialDelay maxDelay (some c) retryCount = c :=
  ⟨rfl, min_le_right _ _, rfl⟩

/-! ## rxjs subject model

The workers broadcast through `ReplaySubject`s (and fold failures into plain
`Subject`s).  The model keeps, besides the rxjs state (replay buffer of size
`cap`, stopped flag, terminal error), a ghost `log` of every value ever
delivered, used only in specifications: a subscriber attached at some point
receives the buffer at that point followed by the subsequent growth of the
log, until the subject stops. -/

structure RSubject (α : Type) where
  buffer : List α
  cap : Nat
  log : List α
  stopped : Bool
  errMsg : Option String
  deriving DecidableEq, Repr

def RSubject.fresh (α : Type) (cap : Nat) : RSubject α :=
  ⟨[], cap, [], false, none⟩

def RSubject.next (s : RSubject α) (v : α) : RSubject α :=
  if s.stopped then s
  else
    { s with
      buffer := (s.buffer ++ [v]).drop ((s.buffer ++ [v]).length - s.cap),
      log := s.log ++ [v] }

def RSubject.complete (s : RSubject α) : RSubject α :=
  if s.stopped then s else { s with stopped := true }

def RSubject.error (s : RSubject α) (msg : String) : RSubject α :=
  if s.stopped then s else { s with stopped := true, errMsg := some msg }

theorem RSubject.next_buffer_cap1 (s : RSubject α) (v : α) (hcap : s.cap = 1)
    (hst : s.stopped = false) : (s.next v).buffer = [v] := by
  unfold RSubject.next
  rw [if_neg (by rw [hst]; exact Bool.false_ne_true)]
  simp [hcap]

theorem RSubject.next_log (s : RSubject α) (v : α) (hst : s.stopped = false) :
    (s.next v).log = s.log ++ [v] := by
  unfold RSubject.next
  rw [if_neg (by rw [hst]; exact Bool.false_ne_true)]

theorem RSubject.next_stopped (s : RSubject α) (v : α) :
    (s.next v).stopped = s.stopped := by
  unfold RSubject.next
  by_cases h : s.stopped = true
  · rw [if_pos h]
  · rw [if_neg h]

theorem RSubject.next_cap (s : RSubject α) (v : α) : (s.next v).cap = s.cap := by
  unfold RSubject.next
  by_cases h : s.stopped = true
  · rw [if_pos h]
  · rw [if_neg h]

theorem RSubject.next_of_stopped (s : RSubject α) (v : α) (hst : s.stopped = true) :
    s.next v = s := by
  unfold RSubject.next
  rw [if_pos hst]

theorem RSubject.error_of_stopped (s : RSubject α) (msg : String)
    (hst : s.stopped = true) : s.error msg = s := by
  unfold RSubject.error
  rw [if_pos hst]

theorem RSubject.complete_stopped (s : RSubject α) : s.complete.stopped = true := by
  unfold RSubject.complete
  by_cases h : s.stopped = true
  · rw [if_pos h]; exact h
  · rw [if_neg h]

/-! ## WebsocketWorker (`websocket.worker.ts`)

The worker is a state machine over: the `WebSocketSubject` transport (modelled
as a sink with a `closed` flag, the list of written messages, and an optional
failure injected by `next` — the serializer may throw, which the `try/catch`
routes to the error subject), the retry-pipeline subscription flag, the
broadcast `ReplaySubject(1)` of messages (whose *identity* is tracked by
`msgGen`: `connect()` replaces the subject, while pipelines obtained earlier
via `listen()` keep referencing the replaced one, kept in `archived`), the
error subject (modelled as the list of emitted errors), the
`connectionStateSubject` (`ReplaySubject(1)`), and the outbound
`messageQueue`. -/

/-- The five connection states published by the worker (source line 55). -/
inductive ConnState where
  | connecting
  | connected
  | disconnected
  | reconnecting
  | error
  deriving DecidableEq, Repr

structure Transport (M : Type) where
  closed : Bool
  sent : List M
  failNext : Option String
  deriving DecidableEq, Repr

inductive WsError where
  | sendFailure (msg : String)
  | connection (msg : String)
  deriving DecidableEq, Repr

structure WebsocketWorker (M : Type) where
  wsConnection : Option (Transport M)
  wsSubscriptionActive : Bool
  msgGen : Nat
  wsMessagesSubject : RSubject M
  archived : List (Nat × RSubject M)
  wsErrors : List WsError
  connectionStateSubject : RSubject ConnState
  messageQueue : List M
  deriving DecidableEq, Repr

namespace WebsocketWorker

/-- `send(data)` (source lines 146-157): write immediately when the transport
exists and is not closed, otherwise append to the queue; an exception thrown
by the write is caught and emitted on the error subject. -/
def send (w : WebsocketWorker M) (data : M) : WebsocketWorker M :=
  match w.wsConnection with
  | some t =>
      if t.closed then { w with messageQueue := w.messageQueue ++ [data] }
      else
        match t.failNext with
        | none => { w with wsConnection := some { t with sent := t.sent ++ [data] } }
        | some e => { w with wsErrors := w.wsErrors ++ [.sendFailure e] }
  | none => { w with messageQueue := w.messageQueue ++ [data] }

/-- The identity of the broadcast subject a `listen()`/`pickMessage()` call
made now would pipe from (the getter `messages$` captures the *current*
`wsMessages$`). -/
def listenGen (w : WebsocketWorker M) : Nat := w.msgGen

/-- The subject a pipeline of generation `g` references. -/
def subjectByGen (w : WebsocketWorker M) (g : Nat) : Option (RSubject M) :=
  if g = w.msgGen then some w.wsMessagesSubject
  else (w.archived.find? (fun e => e.1 == g)).map (fun e => e.2)

/-- The `next` handler of the retried stream subscription (source lines
279-282). -/
def onNext (w : WebsocketWorker M) (data : M) : WebsocketWorker M :=
  { w with
    connectionStateSubject := w.connectionStateSubject.next .connected,
    wsMessagesSubject := w.wsMessagesSubject.next data }

/-- The `error` handler (source lines 283-286): publish state `error` and emit
`{type: 'connection', error}` on the error subject. -/
def onError (w : WebsocketWorker M) (e : String) : WebsocketWorker M :=
  { w with
    connectionStateSubject := w.connectionStateSubject.next .error,
    wsErrors := w.wsErrors ++ [.connection e] }

/-- The `complete` handler (source lines 287-289). -/
def onComplete (w : WebsocketWorker M) : WebsocketWorker M :=
  { w with connectionStateSubject := w.connectionStateSubject.next .disconnected }

/-- `connect()` (source lines 248-293): no-op (republish `connected`) when the
subscription is alive; otherwise install a *fresh* broadcast subject (the old
one stays referenced by earlier pipelines: `archived`), open a fresh
transport wrapped in the retry operator, and flush the queue FIFO into it
(batch size and inter-batch delay are timing-only and do not affect the final
transport contents). -/
def connect (w : WebsocketWorker M) : WebsocketWorker M :=
  let w0 := { w with
    connectionStateSubject := w.connectionStateSubject.next .connecting }
  if w.wsSubscriptionActive then
    { w0 with connectionStateSubject := w0.connectionStateSubject.next .connected }
  else
    { w0 with
      msgGen := w.msgGen + 1,
      wsMessagesSubject := RSubject.fresh M 1,
      archived := (w.msgGen, w.wsMessagesSubject) :: w.archived,
      wsConnection := some ⟨false, w.messageQueue, none⟩,
      wsSubscriptionActive := true,
      messageQueue := [] }

/-- `disconnect()` (source lines 303-338): unsubscribe the pipeline (warn when
already unsubscribed), close and drop the transport when it is open (warn
otherwise), complete the broadcast subject, publish `disconnected`. -/
def disconnect (w : WebsocketWorker M) : WebsocketWorker M :=
  let w1 := { w with wsSubscriptionActive := false }
  let w2 :=
    match w1.wsConnection with
    | some t => if t.closed then w1 else { w1 with wsConnection := none }
    | none => w1
  let w3 := { w2 with wsMessagesSubject := w2.wsMessagesSubject.complete }
  { w3 with connectionStateSubject := w3.connectionStateSubject.next .disconnected }

/-- `reconnect()` (source lines 348-352). -/
def reconnect (w : WebsocketWorker M) : WebsocketWorker M :=
  (disconnect { w with
    connectionStateSubject := w.connectionStateSubject.next .reconnecting }).connect

/-- The semantics of rxjs `retry({count, resetOnSuccess: true})` as applied by
`ExponentiallyBackoff`: `attempts` lists, per subscription to the source, the
values it emits and its termination (`none` = complete, `some e` = error).
Failure propagates once the consecutive-failure count (reset by any emitted
value) exceeds `count`; the backoff delays do not affect the delivered
sequence. -/
def retryRun (count : Nat) : Nat → List (List M × Option String) →
    List M × Option String
  | _, [] => ([], none)
  | _, (vs, none) :: _ => (vs, none)
  | fails, (vs, some e) :: rest =>
      let fails' := if vs.isEmpty then fails + 1 else 1
      if count < fails' then (vs, some e)
      else
        let r := retryRun count fails' rest
        (vs ++ r.1, r.2)

/-- Deliver the retried stream to the worker's subscription handlers. -/
def runStream (w : WebsocketWorker M) (maxRetryAttempts : Nat)
    (attempts : List (List M × Option String)) : WebsocketWorker M :=
  let r := retryRun maxRetryAttempts 0 attempts
  let w1 := r.1.foldl (fun acc d => acc.onNext d) w
  match r.2 with
  | some e => w1.onError e
  | none => w1.onComplete

end WebsocketWorker

/-- **C6.**  `send(data)` writes to the transport immediately when it exists
and is not closed; otherwise it appends to the outbound queue.  It is a total
function — no branch throws to the caller — and a write failure (the injected
`failNext` exception, caught by the source's `try/catch`) is emitted on the
error stream instead, leaving queue and transport untouched. -/
theorem websocketWorker_send_spec (M : Type) (w : WebsocketWorker M) (data : M) :
    (∀ t : Transport M, w.wsConnection = some t → t.closed = false →
      (t.failNext = none →
        w.send data =
          { w with wsConnection := some { t with sent := t.sent ++ [data] } }) ∧
      (∀ e, t.failNext = some e →
        w.send data = { w with wsErrors := w.wsErrors ++ [.sendFailure e] })) ∧
    (∀ t : Transport M, w.wsConnection = some t → t.closed = true →
      w.send data = { w with messageQueue := w.messageQueue ++ [data] }) ∧
    (w.wsConnection = none →
      w.send data = { w with messageQueue := w.messageQueue ++ [data] }) := by
  refine ⟨?_, ?_, ?_⟩
  · intro t ht hcl
    constructor
    · intro hfn
      simp [WebsocketWorker.send, ht, hcl, hfn]
    · intro e hfn
      simp [WebsocketWorker.send, ht, hcl, hfn]
  · intro t ht hcl
    simp [WebsocketWorker.send, ht, hcl]
  · intro hn
    simp [WebsocketWorker.send, hn]

/-- Concrete instance for `websocketWorker_send_spec`: an open transport
receives the message immediately; a worker without a transport queues it. -/
theorem websocketWorker_send_spec_witness :
    (WebsocketWorker.send
        ⟨some ⟨false, [], none⟩, true, 1, RSubject.fresh Nat 1, [], [],
          RSubject.fresh ConnState 1, []⟩ 7).wsConnection =
      some ⟨false, [7], none⟩ ∧
    (WebsocketWorker.send
        ⟨none, false, 0, RSubject.fresh Nat 1, [], [],
          RSubject.fresh ConnState 1, []⟩ 7).messageQueue = [7] :=
  ⟨by
    rw [((websocketWorker_send_spec Nat
      ⟨some ⟨false, [], none⟩, true, 1, RSubject.fresh Nat 1, [], [],
        RSubject.fresh ConnState 1, []⟩ 7).1 ⟨false, [], none⟩ rfl rfl).1 rfl]
    rfl,
   by
    rw [(websocketWorker_send_spec Nat
      ⟨none, false, 0, RSubject.fresh Nat 1, [], [],
        RSubject.fresh ConnState 1, []⟩ 7).2.2 rfl]
    rfl⟩

theorem foldl_onNext_facts (M : Type) (l : List M) (w : WebsocketWorker M) :
    (l.foldl (fun acc d => acc.onNext d) w).connectionStateSubject.cap =
      w.connectionStateSubject.cap ∧
    (l.foldl (fun acc d => acc.onNext d) w).connectionStateSubject.stopped =
      w.connectionStateSubject.stopped ∧
    (l.foldl (fun acc d => acc.onNext d) w).wsErrors = w.wsErrors ∧
    (l.foldl (fun acc d => acc.onNext d) w).wsMessagesSubject.stopped =
      w.wsMessagesSubject.stopped := by
  induction l generalizing w with
  | nil => exact ⟨rfl, rfl, rfl, rfl⟩
  | cons d rest ih =>
      obtain ⟨i1, i2, i3, i4⟩ := ih (w.onNext d)
      refine ⟨?_, ?_, ?_, ?_⟩
      · rw [List.foldl_cons, i1]
        exact RSubject.next_cap _ _
      · rw [List.foldl_cons, i2]
        exact RSubject.next_stopped _ _
      · rw [List.foldl_cons, i3]
        rfl
      · rw [List.foldl_cons, i4]
        exact RSubject.next_stopped _ _

/-- Counterexample to **C2** as stated: against an always-failing source with
`maxRetryAttempts = 1`, the retry operator exhausts its retries and
propagates the failure, yet the worker publishes connection state `error`
(not `disconnected`) and does **not** complete its broadcast message
subject. -/
theorem websocketWorker_exhaustion_counterexample :
    (WebsocketWorker.retryRun 1 0
      ([([], some "boom"), ([], some "boom")] :
        List (List Nat × Option String))).2 = some "boom" ∧
    ((WebsocketWorker.connect
        ⟨none, false, 0, RSubject.fresh Nat 1, [], [],
          RSubject.fresh ConnState 1, []⟩).runStream 1
      [([], some "boom"), ([], some "boom")]).connectionStateSubject.buffer =
      [ConnState.error] ∧
    ((WebsocketWorker.connect
        ⟨none, false, 0, RSubject.fresh Nat 1, [], [],
          RSubject.fresh ConnState 1, []⟩).runStream 1
      [([], some "boom"), ([], some "boom")]).wsMessagesSubject.stopped = false ∧
    ¬ (((WebsocketWorker.connect
        ⟨none, false, 0, RSubject.fresh Nat 1, [], [],
          RSubject.fresh ConnState 1, []⟩).runStream 1
      [([], some "boom"), ([], some "boom")]).connectionStateSubject.buffer =
        [ConnState.disconnected] ∧
      ((WebsocketWorker.connect
        ⟨none, false, 0, RSubject.fresh Nat 1, [], [],
          RSubject.fresh ConnState 1, []⟩).runStream 1
      [([], some "boom"), ([], some "boom")]).wsMessagesSubject.stopped = true) := by
  decide

/-- **C2 (amended).**  When the retried connection stream terminates because
the retry attempts are exhausted (the retry operator propagates the failure),
the worker publishes connection state `error` and emits
`{type: 'connection', error}` on its error stream; the broadcast message
subject is left untouched (not completed), and `disconnected` is not
published — that happens only in the `complete` handler. -/
theorem websocketWorker_exhaustion_state (M : Type) (w : WebsocketWorker M)
    (k : Nat) (attempts : List (List M × Option String)) (e : String)
    (hterm : (WebsocketWorker.retryRun k 0 attempts).2 = some e)
    (hcap : w.connectionStateSubject.cap = 1)
    (hstop : w.connectionStateSubject.stopped = false) :
    (w.runStream k attempts).connectionStateSubject.buffer = [ConnState.error] ∧
    (w.runStream k attempts).wsMessagesSubject.stopped =
      w.wsMessagesSubject.stopped ∧
    (w.runStream k attempts).wsErrors = w.wsErrors ++ [.connection e] := by
  obtain ⟨f1, f2, f3, f4⟩ :=
    foldl_onNext_facts M (WebsocketWorker.retryRun k 0 attempts).1 w
  unfold WebsocketWorker.runStream
  simp only [hterm]
  unfold WebsocketWorker.onError
  refine ⟨?_, f4, by rw [f3]⟩
  exact RSubject.next_buffer_cap1 _ _ (by rw [f1]; exact hcap) (by rw [f2]; exact hstop)

/-- Concrete instance for `websocketWorker_exhaustion_state`. -/
theorem websocketWorker_exhaustion_state_witness :
    ((WebsocketWorker.connect
        ⟨none, false, 0, RSubject.fresh Nat 1, [], [],
          RSubject.fresh ConnState 1, []⟩).runStream 1
      [([], some "boom"), ([], some "boom")]).connectionStateSubject.buffer =
      [ConnState.error] ∧
    ((WebsocketWorker.connect
        ⟨none, false, 0, RSubject.fresh Nat 1, [], [],
          RSubject.fresh ConnState 1, []⟩).runStream 1
      [([], some "boom"), ([], some "boom")]).wsMessagesSubject.stopped =
      (WebsocketWorker.connect
        ⟨none, false, 0, RSubject.fresh Nat 1, [], [],
          RSubject.fresh ConnState 1, []⟩).wsMessagesSubject.stopped ∧
    ((WebsocketWorker.connect
        ⟨none, false, 0, RSubject.fresh Nat 1, [], [],
          RSubject.fresh ConnState 1, []⟩).runStream 1
      [([], some "boom"), ([], some "boom")]).wsErrors =
      (WebsocketWorker.connect
        ⟨none, false, 0, RSubject.fresh Nat 1, [], [],
          RSubject.fresh ConnState 1, []⟩).wsErrors ++
        [.connection "boom"] :=
  websocketWorker_exhaustion_state Nat
    (WebsocketWorker.connect
      ⟨none, false, 0, RSubject.fresh Nat 1, [], [],
        RSubject.fresh ConnState 1, []⟩) 1
    [([], some "boom"), ([], some "boom")] "boom" (by decide) (by decide) (by decide)

theorem websocketWorker_disconnect_fields (M : Type) (w : WebsocketWorker M) :
    (w.disconnect).wsSubscriptionActive = false ∧
    (w.disconnect).msgGen = w.msgGen ∧
    (w.disconnect).wsMessagesSubject = w.wsMessagesSubject.complete ∧
    (w.disconnect).archived = w.archived ∧
    (w.disconnect).messageQueue = w.messageQueue := by
  unfold WebsocketWorker.disconnect
  cases hcon : w.wsConnection with
  | none => exact ⟨rfl, rfl, rfl, rfl, rfl⟩
  | some t =>
      cases hcl : t.closed with
      | false => simp [hcl]
      | true => simp [hcl]

/-- Counterexample to **C7** as stated: a listener obtained (via
`listen()`/`pickMessage()`, which pipe from the *current* broadcast subject)
before an explicit disconnect-and-reconnect cycle does **not** receive the
message the worker delivers after the reconnect: its subject was completed by
`disconnect()` and replaced by `connect()`, so its log stays empty while the
post-reconnect message reaches only the new subject. -/
theorem websocketWorker_listener_lost_on_reconnect :
    ((WebsocketWorker.connect
        ⟨none, false, 0, RSubject.fresh Nat 1, [], [],
          RSubject.fresh ConnState 1, []⟩).reconnect.onNext 42).subjectByGen
      (WebsocketWorker.connect
        ⟨none, false, 0, RSubject.fresh Nat 1, [], [],
          RSubject.fresh ConnState 1, []⟩).listenGen =
      some ⟨[], 1, [], true, none⟩ ∧
    42 ∈ ((WebsocketWorker.connect
        ⟨none, false, 0, RSubject.fresh Nat 1, [], [],
          RSubject.fresh ConnState 1, []⟩).reconnect.onNext 42).wsMessagesSubject.log ∧
    ((WebsocketWorker.connect
        ⟨none, false, 0, RSubject.fresh Nat 1, [], [],
          RSubject.fresh ConnState 1, []⟩).reconnect.onNext 42).msgGen ≠
      (WebsocketWorker.connect
        ⟨none, false, 0, RSubject.fresh Nat 1, [], [],
          RSubject.fresh ConnState 1, []⟩).listenGen := by
  decide

/-- **C7 (amended).**  The outward message stream is stable only *within* one
`connect()`: deliveries go to the current broadcast subject, whose identity
`listen()` captures.  An explicit `reconnect()` completes that subject
(`disconnect()`) and installs a fresh one (`connect()`), so a listener
obtained before the cycle sees its stream complete, receives none of the
messages delivered after the reconnect, and the caller must call `listen()`
again. -/
theorem websocketWorker_reconnect_fresh_subject (M : Type) (w : WebsocketWorker M)
    (m m' : M) :
    (w.wsMessagesSubject.stopped = false →
      (w.onNext m).msgGen = w.msgGen ∧
      (w.onNext m).wsMessagesSubject.log = w.wsMessagesSubject.log ++ [m]) ∧
    w.reconnect.msgGen = w.msgGen + 1 ∧
    w.reconnect.subjectByGen w.msgGen = some w.wsMessagesSubject.complete ∧
    (w.reconnect.onNext m').subjectByGen w.msgGen =
      some w.wsMessagesSubject.complete ∧
    (w.reconnect.onNext m').wsMessagesSubject.log = [m'] := by
  obtain ⟨d1, d2, d3, d4, d5⟩ := websocketWorker_disconnect_fields M
    { w with connectionStateSubject := w.connectionStateSubject.next .reconnecting }
  have hrec : w.reconnect =
      WebsocketWorker.connect
        ({ w with
          connectionStateSubject :=
            w.connectionStateSubject.next .reconnecting }).disconnect := rfl
  refine ⟨?_, ?_, ?_, ?_, ?_⟩
  · intro hst
    exact ⟨rfl, RSubject.next_log _ _ hst⟩
  · rw [hrec]
    unfold WebsocketWorker.connect
    rw [if_neg (by rw [d1]; exact Bool.false_ne_true)]
    simp only [d2]
  · rw [hrec]
    unfold WebsocketWorker.connect
    rw [if_neg (by rw [d1]; exact Bool.false_ne_true)]
    unfold WebsocketWorker.subjectByGen
    simp only [d2, d3]
    rw [if_neg (by omega)]
    simp
  · rw [hrec]
    unfold WebsocketWorker.connect
    rw [if_neg (by rw [d1]; exact Bool.false_ne_true)]
    unfold WebsocketWorker.onNext WebsocketWorker.subjectByGen
    simp only [d2, d3]
    rw [if_neg (by omega)]
    simp
  · rw [hrec]
    unfold WebsocketWorker.connect
    rw [if_neg (by rw [d1]; exact Bool.false_ne_true)]
    unfold WebsocketWorker.onNext
    simp only
    rw [RSubject.next_log _ _ rfl]
    rfl

/-- Concrete instance for `websocketWorker_reconnect_fresh_subject`. -/
theorem websocketWorker_reconnect_fresh_subject_witness :
    ((WebsocketWorker.connect
        ⟨none, false, 0, RSubject.fresh Nat 1, [], [],
          RSubject.fresh ConnState 1, []⟩).wsMessagesSubject.stopped = false) ∧
    ((WebsocketWorker.connect
        ⟨none, false, 0, RSubject.fresh Nat 1, [], [],
          RSubject.fresh ConnState 1, []⟩).reconnect.onNext
        99).wsMessagesSubject.log = [99] :=
  ⟨by decide,
    (websocketWorker_reconnect_fresh_subject Nat
      (WebsocketWorker.connect
        ⟨none, false, 0, RSubject.fresh Nat 1, [], [],
          RSubject.fresh ConnState 1, []⟩) 0 99).2.2.2.2⟩

/-! ## ServerSentEventWorker (`server-sent-event.worker.ts`)

The worker owns an `EventSource` (modelled by its `readyState`), a
`ReplaySubject(1)` of `ServerSentEvent` envelopes, and the `isSubjectClosed`
flag.  `ngZone.run(cb)` executes `cb` synchronously and is modelled as direct
invocation.  `JSON.parse` is an environment primitive, modelled as an
abstract parser `parse : String → Except String M` (`.error` = the exception
`JSON.parse` throws). -/

/-- `ServerSentEvent<M, E>` (`server-sent-event.interface.ts`). -/
structure ServerSentEvent (M E : Type) where
  event : E
  data : M
  deriving DecidableEq, Repr

inductive ESReadyState where
  | connecting
  | opened
  | closed
  deriving DecidableEq, Repr

structure ServerSentEventWorker (M E : Type) where
  sseEventSource : Option ESReadyState
  sseEventSubject : RSubject (ServerSentEvent M E)
  isSubjectClosed : Bool
  deriving DecidableEq, Repr

namespace ServerSentEventWorker

/-- The `onmessage` handler registered by `connect()` (source lines 155-169):
drop the frame when the subject is closed; otherwise parse the payload and
publish the envelope, or — when parsing throws — call `.error(...)` on the
event subject itself. -/
def handleMessage (parse : String → Except String M)
    (w : ServerSentEventWorker M E) (event : E) (raw : String) :
    ServerSentEventWorker M E :=
  if w.isSubjectClosed then w
  else
    match parse raw with
    | .ok data =>
        { w with sseEventSubject := w.sseEventSubject.next ⟨event, data⟩ }
    | .error msg =>
        { w with sseEventSubject :=
            w.sseEventSubject.error ("Failed to parse SSE data: " ++ msg) }

def handleMessages (parse : String → Except String M)
    (w : ServerSentEventWorker M E) (msgs : List (E × String)) :
    ServerSentEventWorker M E :=
  msgs.foldl (fun acc m => handleMessage parse acc m.1 m.2) w

/-- `connect()` (source lines 137-193): warn and return when an `EventSource`
with `readyState ≠ CLOSED` exists; otherwise reset the closed flag, install a
fresh `ReplaySubject(1)` and open a new `EventSource` (handler registration
is implicit in `handleMessage`; custom listeners are not modelled). -/
def connect (w : ServerSentEventWorker M E) : ServerSentEventWorker M E :=
  match w.sseEventSource with
  | some rs =>
      if rs = ESReadyState.closed then
        { w with
          isSubjectClosed := false,
          sseEventSubject := RSubject.fresh (ServerSentEvent M E) 1,
          sseEventSource := some .connecting }
      else w
  | none =>
      { w with
        isSubjectClosed := false,
        sseEventSubject := RSubject.fresh (ServerSentEvent M E) 1,
        sseEventSource := some .connecting }

/-- `disconnect()` (source lines 216-228): `close()` the `EventSource` when it
is not already closed (warn otherwise) and clear the field in either case. -/
def disconnect (w : ServerSentEventWorker M E) : ServerSentEventWorker M E :=
  { w with sseEventSource := none }

/-- `completeSubject()` (source lines 336-341). -/
def completeSubject (w : ServerSentEventWorker M E) : ServerSentEventWorker M E :=
  if w.isSubjectClosed then w
  else
    { w with
      sseEventSubject := w.sseEventSubject.complete,
      isSubjectClosed := true }

/-- `cleanOnDestroy()` (source lines 234-237). -/
def cleanOnDestroy (w : ServerSentEventWorker M E) : ServerSentEventWorker M E :=
  completeSubject (disconnect w)

end ServerSentEventWorker

theorem sse_handleMessage_of_closed (parse : String → Except String M)
    (w : ServerSentEventWorker M E) (hcl : w.isSubjectClosed = true)
    (e : E) (raw : String) :
    ServerSentEventWorker.handleMessage parse w e raw = w := by
  unfold ServerSentEventWorker.handleMessage
  rw [if_pos hcl]

theorem sse_handleMessage_of_stopped (parse : String → Except String M)
    (w : ServerSentEventWorker M E) (hcl : w.isSubjectClosed = false)
    (hst : w.sseEventSubject.stopped = true) (e : E) (raw : String) :
    ServerSentEventWorker.handleMessage parse w e raw = w := by
  unfold ServerSentEventWorker.handleMessage
  rw [if_neg (by rw [hcl]; exact Bool.false_ne_true)]
  cases parse raw with
  | ok m =>
      show { w with sseEventSubject := w.sseEventSubject.next ⟨e, m⟩ } = w
      rw [RSubject.next_of_stopped _ _ hst]
  | error msg =>
      show { w with sseEventSubject :=
        w.sseEventSubject.error ("Failed to parse SSE data: " ++ msg) } = w
      rw [RSubject.error_of_stopped _ _ hst]

/-- **C8.**  The SSE broadcast subject is a `ReplaySubject(1)`: after two
messages `m1`, `m2` have been delivered on the current connection, the replay
buffer — what a subscriber attaching now immediately receives — is exactly
`[⟨e2, m2⟩]`; in particular `m1`'s envelope is not replayed (whenever the two
envelopes differ). -/
theorem sseWorker_replay_depth_one (M E : Type) (parse : String → Except String M)
    (w : ServerSentEventWorker M E) (e1 e2 : E) (d1 d2 : String) (m1 m2 : M)
    (hclosed : w.isSubjectClosed = false)
    (hstop : w.sseEventSubject.stopped = false)
    (hcap : w.sseEventSubject.cap = 1)
    (hp1 : parse d1 = .ok m1) (hp2 : parse d2 = .ok m2) :
    (ServerSentEventWorker.handleMessage parse
        (ServerSentEventWorker.handleMessage parse w e1 d1) e2 d2).sseEventSubject.buffer
      = [⟨e2, m2⟩] ∧
    ((⟨e1, m1⟩ : ServerSentEvent M E) ≠ ⟨e2, m2⟩ →
      (⟨e1, m1⟩ : ServerSentEvent M E) ∉
        (ServerSentEventWorker.handleMessage parse
          (ServerSentEventWorker.handleMessage parse w e1 d1)
          e2 d2).sseEventSubject.buffer) := by
  have h1 : ServerSentEventWorker.handleMessage parse w e1 d1 =
      { w with sseEventSubject := w.sseEventSubject.next ⟨e1, m1⟩ } := by
    unfold ServerSentEventWorker.handleMessage
    rw [if_neg (by rw [hclosed]; exact Bool.false_ne_true), hp1]
  have h2 : ServerSentEventWorker.handleMessage parse
      { w with sseEventSubject := w.sseEventSubject.next ⟨e1, m1⟩ } e2 d2 =
      { w with sseEventSubject :=
          (w.sseEventSubject.next ⟨e1, m1⟩).next ⟨e2, m2⟩ } := by
    unfold ServerSentEventWorker.handleMessage
    rw [if_neg (by rw [hclosed]; exact Bool.false_ne_true), hp2]
  rw [h1, h2]
  have hbuf : ((w.sseEventSubject.next ⟨e1, m1⟩).next ⟨e2, m2⟩).buffer = [⟨e2, m2⟩] :=
    RSubject.next_buffer_cap1 _ _
      (by rw [RSubject.next_cap]; exact hcap)
      (by rw [RSubject.next_stopped]; exact hstop)
  refine ⟨hbuf, ?_⟩
  intro hne hmem
  rw [hbuf] at hmem
  exact hne (List.mem_singleton.mp hmem)

/-- Concrete instance for `sseWorker_replay_depth_one`: payloads `"1"`, `"2"`
parsed by a `JSON.parse`-like parser; the late subscriber's replay is exactly
the second envelope. -/
theorem sseWorker_replay_depth_one_witness :
    (ServerSentEventWorker.handleMessage
        (fun s => if s = "1" then .ok 1 else if s = "2" then .ok 2
          else .error "Unexpected token")
        (ServerSentEventWorker.handleMessage
          (fun s => if s = "1" then .ok 1 else if s = "2" then .ok 2
            else .error "Unexpected token")
          ⟨some .opened, RSubject.fresh (ServerSentEvent Nat Bool) 1, false⟩
          false "1")
        true "2").sseEventSubject.buffer = [⟨true, (2 : Nat)⟩] ∧
    ((⟨false, 1⟩ : ServerSentEvent Nat Bool) ≠ ⟨true, 2⟩ →
      (⟨false, 1⟩ : ServerSentEvent Nat Bool) ∉
        (ServerSentEventWorker.handleMessage
          (fun s => if s = "1" then .ok 1 else if s = "2" then .ok 2
            else .error "Unexpected token")
          (ServerSentEventWorker.handleMessage
            (fun s => if s = "1" then .ok 1 else if s = "2" then .ok 2
              else .error "Unexpected token")
            ⟨some .opened, RSubject.fresh (ServerSentEvent Nat Bool) 1, false⟩
            false "1")
          true "2").sseEventSubject.buffer) :=
  sseWorker_replay_depth_one Nat Bool
    (fun s => if s = "1" then .ok 1 else if s = "2" then .ok 2
      else .error "Unexpected token")
    ⟨some .opened, RSubject.fresh (ServerSentEvent Nat Bool) 1, false⟩
    false true "1" "2" 1 2 rfl rfl rfl rfl rfl

/-- Counterexample to **C5** as stated: a single failing `JSON.parse` calls
`.error(...)` on the event subject itself, which (rxjs semantics) terminates
the message stream for every subscriber: the next, well-formed message is
silently dropped (the worker state does not change at all), so parse failures
are neither isolated to the offending message nor reported on a channel
separate from the message stream.  Only the transport survives: the
`EventSource` stays open. -/
theorem sseWorker_parse_failure_counterexample :
    (ServerSentEventWorker.handleMessage
        (fun s => if s = "42" then Except.ok (42 : Nat)
          else Except.error "Unexpected token")
        ⟨some .opened, RSubject.fresh (ServerSentEvent Nat Bool) 1, false⟩
        true "not-json").sseEventSubject.stopped = true ∧
    (ServerSentEventWorker.handleMessage
        (fun s => if s = "42" then Except.ok (42 : Nat)
          else Except.error "Unexpected token")
        ⟨some .opened, RSubject.fresh (ServerSentEvent Nat Bool) 1, false⟩
        true "not-json").sseEventSubject.errMsg =
      some "Failed to parse SSE data: Unexpected token" ∧
    (ServerSentEventWorker.handleMessage
        (fun s => if s = "42" then Except.ok (42 : Nat)
          else Except.error "Unexpected token")
        (ServerSentEventWorker.handleMessage
          (fun s => if s = "42" then Except.ok (42 : Nat)
            else Except.error "Unexpected token")
          ⟨some .opened, RSubject.fresh (ServerSentEvent Nat Bool) 1, false⟩
          true "not-json")
        true "42") =
      (ServerSentEventWorker.handleMessage
        (fun s => if s = "42" then Except.ok (42 : Nat)
          else Except.error "Unexpected token")
        ⟨some .opened, RSubject.fresh (ServerSentEvent Nat Bool) 1, false⟩
        true "not-json") ∧
    (⟨true, 42⟩ : ServerSentEvent Nat Bool) ∉
      (ServerSentEventWorker.handleMessage
        (fun s => if s = "42" then Except.ok (42 : Nat)
          else Except.error "Unexpected token")
        (ServerSentEventWorker.handleMessage
          (fun s => if s = "42" then Except.ok (42 : Nat)
            else Except.error "Unexpected token")
          ⟨some .opened, RSubject.fresh (ServerSentEvent Nat Bool) 1, false⟩
          true "not-json")
        true "42").sseEventSubject.log ∧
    (ServerSentEventWorker.handleMessage
        (fun s => if s = "42" then Except.ok (42 : Nat)
          else Except.error "Unexpected token")
        ⟨some .opened, RSubject.fresh (ServerSentEvent Nat Bool) 1, false⟩
        true "not-json").sseEventSource = some .opened := by
  decide

/-- **C5 (amended).**  When `JSON.parse` fails on an inbound payload, the
worker calls `.error(...)` on its broadcast subject itself: the failure is
delivered as a *terminal* error on the message stream (there is no separate
error channel), after which no further inbound message changes the worker at
all — subscribers receive nothing more until a new `connect()` installs a
fresh subject.  The `EventSource` connection itself is not closed by the
handler. -/
theorem sseWorker_parse_failure_terminal (M E : Type)
    (parse : String → Except String M) (w : ServerSentEventWorker M E)
    (e : E) (raw msg : String)
    (hclosed : w.isSubjectClosed = false)
    (hstop : w.sseEventSubject.stopped = false)
    (hp : parse raw = .error msg) :
    (ServerSentEventWorker.handleMessage parse w e raw).sseEventSubject.stopped
      = true ∧
    (ServerSentEventWorker.handleMessage parse w e raw).sseEventSubject.errMsg
      = some ("Failed to parse SSE data: " ++ msg) ∧
    (ServerSentEventWorker.handleMessage parse w e raw).sseEventSubject.log
      = w.sseEventSubject.log ∧
    (ServerSentEventWorker.handleMessage parse w e raw).sseEventSource
      = w.sseEventSource ∧
    (∀ msgs, ServerSentEventWorker.handleMessages parse
        (ServerSentEventWorker.handleMessage parse w e raw) msgs =
      ServerSentEventWorker.handleMessage parse w e raw) := by
  have h1 : ServerSentEventWorker.handleMessage parse w e raw =
      { w with sseEventSubject :=
          w.sseEventSubject.error ("Failed to parse SSE data: " ++ msg) } := by
    unfold ServerSentEventWorker.handleMessage
    rw [if_neg (by rw [hclosed]; exact Bool.false_ne_true), hp]
  have herr : w.sseEventSubject.error ("Failed to parse SSE data: " ++ msg) =
      { w.sseEventSubject with
        stopped := true
        errMsg := some ("Failed to parse SSE data: " ++ msg) } := by
    unfold RSubject.error
    rw [if_neg (by rw [hstop]; exact Bool.false_ne_true)]
  have hstop' : (ServerSentEventWorker.handleMessage parse w e raw).sseEventSubject.stopped
      = true := by
    rw [h1, herr]
  refine ⟨hstop', by rw [h1, herr], by rw [h1, herr], by rw [h1], ?_⟩
  intro msgs
  induction msgs with
  | nil => rfl
  | cons m rest ih =>
      unfold ServerSentEventWorker.handleMessages at ih ⊢
      rw [List.foldl_cons,
        sse_handleMessage_of_stopped parse _ (by rw [h1]; exact hclosed) hstop' m.1 m.2]
      exact ih

/-- Concrete instance for `sseWorker_parse_failure_terminal`. -/
theorem sseWorker_parse_failure_terminal_witness :
    (ServerSentEventWorker.handleMessage
        (fun s => if s = "42" then Except.ok (42 : Nat)
          else Except.error "Unexpected token")
        ⟨some .opened, RSubject.fresh (ServerSentEvent Nat Bool) 1, false⟩
        true "not-json").sseEventSubject.stopped = true ∧
    (ServerSentEventWorker.handleMessage
        (fun s => if s = "42" then Except.ok (42 : Nat)
          else Except.error "Unexpected token")
        ⟨some .opened, RSubject.fresh (ServerSentEvent Nat Bool) 1, false⟩
        true "not-json").sseEventSubject.errMsg =
      some ("Failed to parse SSE data: " ++ "Unexpected token") ∧
    (ServerSentEventWorker.handleMessage
        (fun s => if s = "42" then Except.ok (42 : Nat)
          else Except.error "Unexpected token")
        ⟨some .opened, RSubject.fresh (ServerSentEvent Nat Bool) 1, false⟩
        true "not-json").sseEventSubject.log =
      (RSubject.fresh (ServerSentEvent Nat Bool) 1).log ∧
    (ServerSentEventWorker.handleMessage
        (fun s => if s = "42" then Except.ok (42 : Nat)
          else Except.error "Unexpected token")
        ⟨some .opened, RSubject.fresh (ServerSentEvent Nat Bool) 1, false⟩
        true "not-json").sseEventSource = some .opened ∧
    (∀ msgs, ServerSentEventWorker.handleMessages
        (fun s => if s = "42" then Except.ok (42 : Nat)
          else Except.error "Unexpected token")
        (ServerSentEventWorker.handleMessage
          (fun s => if s = "42" then Except.ok (42 : Nat)
            else Except.error "Unexpected token")
          ⟨some .opened, RSubject.fresh (ServerSentEvent Nat Bool) 1, false⟩
          true "not-json") msgs =
      ServerSentEventWorker.handleMessage
        (fun s => if s = "42" then Except.ok (42 : Nat)
          else Except.error "Unexpected token")
        ⟨some .opened, RSubject.fresh (ServerSentEvent Nat Bool) 1, false⟩
        true "not-json") :=
  sseWorker_parse_failure_terminal Nat Bool
    (fun s => if s = "42" then Except.ok (42 : Nat)
      else Except.error "Unexpected token")
    ⟨some .opened, RSubject.fresh (ServerSentEvent Nat Bool) 1, false⟩
    true "not-json" "Unexpected token" rfl rfl rfl

/-- **C10.**  Once `cleanOnDestroy()` has completed the event subject and set
the closed flag, every later inbound transport message is silently dropped:
the `onmessage` handler returns on the closed flag, so the worker state — in
particular the subject, which emits no further value and no error — is
unchanged by any sequence of inbound messages; and when the subject had not
been closed before, it is now completed. -/
theorem sseWorker_closed_flag_drops_messages (M E : Type)
    (parse : String → Except String M) (w : ServerSentEventWorker M E)
    (msgs : List (E × String)) :
    (w.cleanOnDestroy).isSubjectClosed = true ∧
    ServerSentEventWorker.handleMessages parse w.cleanOnDestroy msgs =
      w.cleanOnDestroy ∧
    (w.isSubjectClosed = false →
      (w.cleanOnDestroy).sseEventSubject.stopped = true) := by
  have hflag : (w.cleanOnDestroy).isSubjectClosed = true := by
    unfold ServerSentEventWorker.cleanOnDestroy ServerSentEventWorker.completeSubject
      ServerSentEventWorker.disconnect
    by_cases h : w.isSubjectClosed = true
    · rw [if_pos h]; exact h
    · rw [if_neg h]
  refine ⟨hflag, ?_, ?_⟩
  · induction msgs with
    | nil => rfl
    | cons m rest ih =>
        unfold ServerSentEventWorker.handleMessages at ih ⊢
        rw [List.foldl_cons, sse_handleMessage_of_closed parse _ hflag m.1 m.2]
        exact ih
  · intro h
    unfold ServerSentEventWorker.cleanOnDestroy ServerSentEventWorker.completeSubject
      ServerSentEventWorker.disconnect
    rw [if_neg (by rw [h]; exact Bool.false_ne_true)]
    exact RSubject.complete_stopped _

/-- Concrete instance for `sseWorker_closed_flag_drops_messages` (the closed
subject also drops messages whose payload would parse). -/
theorem sseWorker_closed_flag_drops_messages_witness :
    ((⟨some .opened, RSubject.fresh (ServerSentEvent Nat Bool) 1,
        false⟩ : ServerSentEventWorker Nat Bool).cleanOnDestroy).isSubjectClosed
      = true ∧
    ServerSentEventWorker.handleMessages
      (fun s => if s = "42" then Except.ok (42 : Nat)
        else Except.error "Unexpected token")
      (⟨some .opened, RSubject.fresh (ServerSentEvent Nat Bool) 1,
        false⟩ : ServerSentEventWorker Nat Bool).cleanOnDestroy
      [(true, "42"), (false, "not-json")] =
      (⟨some .opened, RSubject.fresh (ServerSentEvent Nat Bool) 1,
        false⟩ : ServerSentEventWorker Nat Bool).cleanOnDestroy ∧
    ((false : Bool) = false →
      ((⟨some .opened, RSubject.fresh (ServerSentEvent Nat Bool) 1,
        false⟩ : ServerSentEventWorker Nat Bool).cleanOnDestroy).sseEventSubject.stopped
        = true) :=
  sseWorker_closed_flag_drops_messages Nat Bool
    (fun s => if s = "42" then Except.ok (42 : Nat)
      else Except.error "Unexpected token")
    ⟨some .opened, RSubject.fresh (ServerSentEvent Nat Bool) 1, false⟩
    [(true, "42"), (false, "not-json")]

end AngularTools
